import Mathlib

/-!
Verification development for the imputation subsystem of the HR data-cleaning
pipeline (`src/imputation.py`): a shallow embedding of the two imputers
`imputar_categoricas` and `imputar_numericas` over an explicit dataframe model,
together with theorems settling the specification claims.

Modelling conventions:
* a dataframe is an ordered list of named, typed columns; a cell is `Option Val`
  (`none` is pandas `NaN`/missing);
* machine floats are modelled as exact rationals `ℚ` (all arithmetic performed
  by the source on the claim-relevant paths is field arithmetic, so this is the
  intended real-number semantics of the code);
* pandas/sklearn calls are translated to explicit functions on this model,
  with fallible library behaviour (KeyError, sklearn shape/validation errors)
  returned through `Except`.
-/

set_option maxHeartbeats 1000000
set_option maxRecDepth 100000

namespace HRImpute

/-- A cell value: categorical/text columns hold strings, numeric columns hold
(exact-rational models of) numbers. -/
inductive Val where
  | vStr : String → Val
  | vNum : ℚ → Val
deriving DecidableEq

/-- Column dtypes that occur in the imputation subsystem: `int64`, `float64`,
nullable `Int64`, and `object` (categorical/text). -/
inductive Dtype where
  | dtInt : Dtype
  | dtFloat : Dtype
  | dtInt64N : Dtype
  | dtObj : Dtype
deriving DecidableEq

/-- `select_dtypes(include=[np.number])` membership: every dtype except
`object` is numeric (nullable `Int64` counts as numeric in pandas). -/
def Dtype.isNumeric : Dtype → Bool
  | .dtObj => false
  | _ => true

/-- `pd.api.types.is_integer_dtype`: `int64` and nullable `Int64`. -/
def Dtype.isInteger : Dtype → Bool
  | .dtInt => true
  | .dtInt64N => true
  | _ => false

/-- A named, typed column; `none` cells are missing values. -/
structure Col where
  name : String
  dtype : Dtype
  cells : List (Option Val)
deriving DecidableEq

/-- A dataframe: a row count and an ordered list of columns. -/
structure DataFrame where
  nrows : ℕ
  cols : List Col
deriving DecidableEq

def DataFrame.names (df : DataFrame) : List String :=
  df.cols.map Col.name

/-- `col in df.columns` / label lookup: the first column with the given name. -/
def DataFrame.getCol? (df : DataFrame) (s : String) : Option Col :=
  df.cols.find? (fun c => decide (c.name = s))

def DataFrame.hasCol (df : DataFrame) (s : String) : Bool :=
  (df.getCol? s).isSome

/-- pandas column assignment `df[name] = ...`: replace in place when the label
exists (all positions carrying that label), append at the end otherwise. -/
def DataFrame.setCol (df : DataFrame) (c : Col) : DataFrame :=
  if df.hasCol c.name then
    ⟨df.nrows, df.cols.map (fun c0 => if c0.name = c.name then c else c0)⟩
  else
    ⟨df.nrows, df.cols ++ [c]⟩

/-- The numeric content of a cell (`none` for missing; text cells cannot occur
in numeric-dtype columns of a well-formed frame). -/
def cellQ : Option Val → Option ℚ
  | some (.vNum q) => some q
  | _ => none

def Col.qcells (c : Col) : List (Option ℚ) :=
  c.cells.map cellQ

/-- The observed (non-missing) numeric values of a column, in row order. -/
def Col.presentQ (c : Col) : List ℚ :=
  c.qcells.filterMap id

/-- `isnull().sum()`. -/
def countMissing (cells : List (Option Val)) : ℕ :=
  cells.countP (fun x => x.isNone)

/-- `Series.fillna(v)`. -/
def fillnaCells (cells : List (Option Val)) (v : Val) : List (Option Val) :=
  cells.map (fun x => match x with | none => some v | some w => some w)

/-- Error message of the pandas `KeyError` raised by `df[columnas]` on an
absent label (pandas >= 1.0). -/
def msgKeyError : String :=
  "KeyError: requested columns not in index"

/-- sklearn error when `SimpleImputer` sees a column without observed values
(the transform drops the column and the write-back shape mismatches). -/
def msgNoObserved : String :=
  "SimpleImputer: column has no observed values"

/-- sklearn error when `StandardScaler.fit` receives 0 samples. -/
def msgNoSamples : String :=
  "StandardScaler: 0 samples"

/-- sklearn parameter validation for `KNNImputer(n_neighbors=0)`. -/
def msgBadNeighbors : String :=
  "KNNImputer: n_neighbors must be positive"

/-- sklearn error when a context feature has no observed value (`KNNImputer`
drops it; `inverse_transform` then raises on the mismatched shape). -/
def msgAllNaNFeature : String :=
  "KNNImputer: all-NaN context feature"

/-- Unreachable: a column of `columnas_validas` is always present. -/
def msgVanished : String :=
  "internal: column vanished"

/-- Well-formedness of a column inside an `n`-row frame: the cell list has
exactly `n` entries, numeric dtypes hold only numbers, and integer dtypes hold
only whole numbers (this is exactly what pandas can represent). -/
def Col.wfb (n : ℕ) (c : Col) : Bool :=
  decide (c.cells.length = n) &&
  (if c.dtype.isNumeric then
    c.cells.all (fun x => match x with
      | none => true
      | some (.vNum _) => true
      | some (.vStr _) => false)
   else true) &&
  (if c.dtype.isInteger then
    c.cells.all (fun x => match x with
      | some (.vNum q) => decide (q.den = 1)
      | _ => true)
   else true)

/-- Well-formed dataframe: well-formed columns and distinct column labels. -/
def DataFrame.wf (df : DataFrame) : Prop :=
  (∀ c ∈ df.cols, Col.wfb df.nrows c = true) ∧ df.names.Nodup

instance (df : DataFrame) : Decidable df.wf := by
  unfold DataFrame.wf; infer_instance

/-! ## Categorical imputer (`imputar_categoricas`, imputation.py lines 11-68) -/

/-- The configuration parameters of `imputar_categoricas`, in signature order.
Defaults: 0.20, 0.05, 0.50, 0.60, 0.20, `"Unknown"`. -/
structure CatParams where
  umbral_nulos_alto : ℚ
  umbral_nulos_bajo : ℚ
  umbral_moda_bajo : ℚ
  umbral_moda_medio : ℚ
  umbral_ventaja : ℚ
  etiqueta_unknown : Val
deriving DecidableEq

def defaultCatParams : CatParams :=
  ⟨1/5, 1/20, 1/2, 3/5, 1/5, Val.vStr ("Unknown")⟩

/-- Which branch of the per-column categorical algorithm fired (mirrors the
diagnostic prints of the source: skipped / high-missing fallback / no observed
values / mode fill / low-confidence fallback). -/
inductive CatBranch where
  | colMissing : CatBranch
  | highMissing : CatBranch
  | noValues : CatBranch
  | modeFill : CatBranch
  | fallbackFill : CatBranch
deriving DecidableEq

/-- The present values of a cell list, in row order (`dropna=True`). -/
def presentVals (cells : List (Option Val)) : List Val :=
  cells.filterMap id

/-- Occurrences of the value `v` among the cells. -/
def countVal (cells : List (Option Val)) (v : Val) : ℕ :=
  cells.countP (fun x => decide (x = some v))

/-- Distinct present values in first-occurrence order (the index set of
`value_counts(dropna=True)`). -/
def distinctVals (cells : List (Option Val)) : List Val :=
  (presentVals cells).foldl
    (fun acc v => if acc.any (fun w => decide (w = v)) then acc else acc ++ [v]) []

/-- `value_counts().iloc[0]`: the largest per-value occurrence count. -/
def topCount (cells : List (Option Val)) : ℕ :=
  ((distinctVals cells).map (countVal cells)).foldr max 0

/-- `value_counts().iloc[1]` (second-largest count, counted with multiplicity);
the source uses `0.0` when fewer than two distinct values exist. -/
def secondCount (cells : List (Option Val)) : ℕ :=
  if 1 < (distinctVals cells).length then
    (((distinctVals cells).map (countVal cells)).erase (topCount cells)).foldr max 0
  else 0

/-- Total order on values used to model how pandas `mode()` sorts its result
(numbers before strings; numeric and lexicographic order within a kind). -/
def valLe : Val → Val → Bool
  | .vNum a, .vNum b => decide (a ≤ b)
  | .vNum _, .vStr _ => true
  | .vStr _, .vNum _ => false
  | .vStr a, .vStr b => decide (a ≤ b)

/-- `Series.mode(dropna=True)[0]`: the least value (in `valLe` order) among the
values attaining the maximal occurrence count; `none` when nothing is observed
(in the source that case is unreachable: it is guarded by `len(valores) == 0`). -/
def modaOf (cells : List (Option Val)) : Option Val :=
  match (distinctVals cells).filter (fun v => decide (countVal cells v = topCount cells)) with
  | [] => none
  | h :: t => some (t.foldl (fun a b => if valLe b a then b else a) h)

/-- One iteration of the `for col in columnas` loop of `imputar_categoricas`
(lines 19-66), returning the updated frame and the branch taken. -/
def catStep (p : CatParams) (df : DataFrame) (col : String) : DataFrame × CatBranch :=
  match df.getCol? col with
  | none => (df, CatBranch.colMissing)
  | some c =>
    let total := df.nrows
    let nulos := countMissing c.cells
    let porcentaje : ℚ := if 0 < total then (nulos : ℚ) / (total : ℚ) else 0
    if p.umbral_nulos_alto < porcentaje then
      (df.setCol ⟨c.name, c.dtype, fillnaCells c.cells p.etiqueta_unknown⟩,
       CatBranch.highMissing)
    else if (distinctVals c.cells).length = 0 then
      (df.setCol ⟨c.name, c.dtype, fillnaCells c.cells p.etiqueta_unknown⟩,
       CatBranch.noValues)
    else
      let pct_primero : ℚ := (topCount c.cells : ℚ) / (total : ℚ)
      let pct_segundo : ℚ := (secondCount c.cells : ℚ) / (total : ℚ)
      let ventaja : ℚ := pct_primero - pct_segundo
      let umbral_moda : ℚ :=
        if porcentaje ≤ p.umbral_nulos_bajo then p.umbral_moda_bajo else p.umbral_moda_medio
      if umbral_moda ≤ pct_primero ∧ p.umbral_ventaja ≤ ventaja then
        (df.setCol ⟨c.name, c.dtype,
           fillnaCells c.cells ((modaOf c.cells).getD p.etiqueta_unknown)⟩,
         CatBranch.modeFill)
      else
        (df.setCol ⟨c.name, c.dtype, fillnaCells c.cells p.etiqueta_unknown⟩,
         CatBranch.fallbackFill)

/-- The whole column loop, also recording the branch taken per column. -/
def catRun (p : CatParams) (df : DataFrame) : List String → DataFrame × List CatBranch
  | [] => (df, [])
  | col :: rest =>
    let r := catStep p df col
    let rr := catRun p r.1 rest
    (rr.1, r.2 :: rr.2)

/-- `imputar_categoricas(df, columnas, ...)`: mutate-and-return the frame. -/
def imputar_categoricas (df : DataFrame) (columnas : List String) (p : CatParams) :
    DataFrame :=
  (catRun p df columnas).1

/-- The branch taken for each requested column. -/
def categoricalBranches (df : DataFrame) (columnas : List String) (p : CatParams) :
    List CatBranch :=
  (catRun p df columnas).2

/-! ## Numeric imputer (`imputar_numericas`, imputation.py lines 71-151) -/

/-- The configuration parameters of `imputar_numericas`, in signature order.
Defaults: 0.05, 0.20, 5, `true`, `false`. -/
structure NumParams where
  umbral_nulos_bajo : ℚ
  umbral_nulos_alto : ℚ
  n_neighbors : ℕ
  crear_indicador_missing : Bool
  usar_knn_en_alto : Bool
deriving DecidableEq

def defaultNumParams : NumParams := ⟨1/20, 1/5, 5, true, false⟩

/-- Which tier of the per-column numeric algorithm fired. -/
inductive NumBranch where
  | median : NumBranch
  | knn : NumBranch
  | highMissing : NumBranch
deriving DecidableEq

/-- numpy median: sort ascending; middle element for odd length, average of
the two middle elements for even length (insertion sort used as the model). -/
def insertQ (x : ℚ) : List ℚ → List ℚ
  | [] => [x]
  | y :: ys => if x ≤ y then x :: y :: ys else y :: insertQ x ys

def sortQ : List ℚ → List ℚ
  | [] => []
  | x :: xs => insertQ x (sortQ xs)

def listMedian (xs : List ℚ) : ℚ :=
  let s := sortQ xs
  let n := s.length
  if n % 2 = 1 then s.getD (n / 2) 0
  else (s.getD (n / 2 - 1) 0 + s.getD (n / 2) 0) / 2

/-- `SimpleImputer(strategy="median").fit_transform(df[[col]])` written back by
`df[[col]] = ...`: every observed value is kept, every missing cell receives
the median of the observed values, and the column dtype becomes float64. -/
def medianFillCol (c : Col) : Col :=
  ⟨c.name, Dtype.dtFloat,
   c.cells.map (fun x =>
     match cellQ x with
     | some q => some (Val.vNum q)
     | none => some (Val.vNum (listMedian c.presentQ)))⟩

/-- The median branch fails (sklearn raises / the `df[[col]] = ...` assignment
has mismatched shape) exactly when the column has no observed value at all. -/
def numMedianBranch (df : DataFrame) (c : Col) : Except String DataFrame :=
  if c.presentQ.isEmpty then Except.error msgNoObserved
  else Except.ok (df.setCol (medianFillCol c))

/-- Population mean of a list (0 for the empty list, matching `sum/0 = 0`). -/
def listMean (xs : List ℚ) : ℚ :=
  xs.sum / (xs.length : ℚ)

/-- Population variance (`np.nanvar` over the observed values), used by
`StandardScaler` (`ddof=0`). -/
def colVar (cells : List (Option ℚ)) : ℚ :=
  let xs := cells.filterMap id
  if xs.isEmpty then 0
  else (xs.map (fun x => (x - listMean xs) ^ 2)).sum / (xs.length : ℚ)

/-- `StandardScaler.scale_` squared: the variance of the observed values, with
sklearn's guard replacing a zero variance by 1. -/
def scaleVar (cells : List (Option ℚ)) : ℚ :=
  if colVar cells = 0 then 1 else colVar cells

/-- The numeric context matrix `X = df[cols_num_contexto]`, one entry per
context column, each a cell list (`none` = NaN). -/
def ctxMatrix (df : DataFrame) (ctxNames : List String) : List (List (Option ℚ)) :=
  ctxNames.map (fun m =>
    match df.getCol? m with
    | some c => c.qcells
    | none => [])

/-- Squared `nan_euclidean` distance between rows `i` and `j` of the
standardized context: `(n_features / n_common) * Σ (Δx_f)² / scale_f²` over the
features observed in both rows; `none` (NaN) when no feature is common.
Standardization is affine per feature, so a squared standardized difference is
the squared raw difference divided by the feature's (guarded) variance. -/
def sqDistScaled (X : List (List (Option ℚ))) (vars : List ℚ) (i j : ℕ) : Option ℚ :=
  let diffs := (X.zip vars).filterMap (fun cv =>
    match cv.1.getD i none, cv.1.getD j none with
    | some a, some b => some ((a - b) ^ 2 / cv.2)
    | _, _ => none)
  if diffs.isEmpty then none
  else some (((X.length : ℚ) / (diffs.length : ℚ)) * diffs.sum)

/-- Insertion into a candidate-donor list sorted by squared distance, ties by
row index (the model of sklearn's donor ranking). Entries are
(squared distance, row index, donor's value of the target feature). -/
def insertCand (x : ℚ × ℕ × ℚ) : List (ℚ × ℕ × ℚ) → List (ℚ × ℕ × ℚ)
  | [] => [x]
  | y :: ys =>
    if x.1 < y.1 ∨ (x.1 = y.1 ∧ x.2.1 ≤ y.2.1) then x :: y :: ys
    else y :: insertCand x ys

def sortCands : List (ℚ × ℕ × ℚ) → List (ℚ × ℕ × ℚ)
  | [] => []
  | x :: xs => insertCand x (sortCands xs)

/-- The value `KNNImputer(n_neighbors=k)` (uniform weights) assigns to the
missing entry of feature `f` at row `i`, read back in raw units after
`scaler.inverse_transform`: donors are the rows where `f` is observed and the
`nan_euclidean` distance to row `i` is defined; the imputed standardized value
is the plain mean over the `k` nearest donors, and the affine inverse transform
turns that into the plain mean of the donors' raw values (sklearn's fallback
when no donor has a defined distance is the feature's observed mean). -/
def knnFillValue (X : List (List (Option ℚ))) (vars : List ℚ)
    (f : List (Option ℚ)) (k i n : ℕ) : ℚ :=
  let cands := (List.range n).filterMap (fun j =>
    match f.getD j none with
    | some y =>
      match sqDistScaled X vars i j with
      | some d => some (d, j, y)
      | none => none
    | none => none)
  if cands.isEmpty then listMean (f.filterMap id)
  else
    let chosen := (sortCands cands).take k
    listMean (chosen.map (fun t => t.2.2))

/-- `df[col] = X_imputed[col]` after scale / KNN-impute / inverse-scale:
observed entries come back unchanged (the affine transform is inverted
exactly), missing entries receive `knnFillValue`; dtype becomes float64. -/
def knnFillCol (df : DataFrame) (ctxNames : List String) (c : Col) (k : ℕ) : Col :=
  let X := ctxMatrix df ctxNames
  let vars := X.map scaleVar
  let f := c.qcells
  ⟨c.name, Dtype.dtFloat,
   (List.range df.nrows).map (fun i =>
     match f.getD i none with
     | some q => some (Val.vNum q)
     | none => some (Val.vNum (knnFillValue X vars f k i df.nrows)))⟩

/-- The scale / KNN / inverse-scale block (lines 108-118 and 127-137): fails
when the frame has no rows (`StandardScaler` requires samples), when
`n_neighbors` is not positive (sklearn parameter validation), or when a context
feature has no observed value (`KNNImputer` drops it and the subsequent
`inverse_transform` raises on the mismatched shape). -/
def numKnnBranch (df : DataFrame) (ctxNames : List String) (c : Col) (k : ℕ) :
    Except String DataFrame :=
  if df.nrows = 0 then Except.error msgNoSamples
  else if k = 0 then Except.error msgBadNeighbors
  else if (ctxMatrix df ctxNames).any (fun colv => (colv.filterMap id).isEmpty) then
    Except.error msgAllNaNFeature
  else Except.ok (df.setCol (knnFillCol df ctxNames c k))

/-- `df[col].isnull().astype(int)` under the name `col + "_missing"`. -/
def indicatorCol (c : Col) : Col :=
  ⟨c.name ++ "_missing", Dtype.dtInt,
   c.cells.map (fun x => some (Val.vNum (if x.isNone then 1 else 0)))⟩

/-- One iteration of the `for col in columnas_validas` loop (lines 96-140). -/
def numStep (p : NumParams) (ctxNames : List String) (df : DataFrame) (n : String) :
    Except String (DataFrame × NumBranch) :=
  match df.getCol? n with
  | none => Except.error msgVanished
  | some c =>
    let total := df.nrows
    let nulos := countMissing c.cells
    let porcentaje : ℚ := if 0 < total then (nulos : ℚ) / (total : ℚ) else 0
    if porcentaje ≤ p.umbral_nulos_bajo then
      (numMedianBranch df c).map (fun d => (d, NumBranch.median))
    else if porcentaje ≤ p.umbral_nulos_alto then
      (numKnnBranch df ctxNames c p.n_neighbors).map (fun d => (d, NumBranch.knn))
    else
      let df1 := if p.crear_indicador_missing then df.setCol (indicatorCol c) else df
      if p.usar_knn_en_alto then
        (numKnnBranch df1 ctxNames c p.n_neighbors).map (fun d => (d, NumBranch.highMissing))
      else
        (numMedianBranch df1 c).map (fun d => (d, NumBranch.highMissing))

/-- The whole numeric column loop, recording the branch taken per column. -/
def numRun (p : NumParams) (ctxNames : List String) :
    DataFrame → List String → Except String (DataFrame × List NumBranch)
  | df, [] => Except.ok (df, [])
  | df, n :: rest =>
    match numStep p ctxNames df n with
    | Except.error e => Except.error e
    | Except.ok r =>
      match numRun p ctxNames r.1 rest with
      | Except.error e => Except.error e
      | Except.ok rr => Except.ok (rr.1, r.2 :: rr.2)

/-- numpy half-to-even rounding (`Series.round()`). -/
def roundHalfEven (q : ℚ) : ℤ :=
  let f := ⌊q⌋
  let r := q - (f : ℚ)
  if r < 1/2 then f
  else if 1/2 < r then f + 1
  else if f % 2 = 0 then f else f + 1

/-- `df[col].round().astype("Int64")`: every observed numeric value is rounded
half-to-even; the dtype becomes nullable `Int64`. -/
def castIntCol (c : Col) : Col :=
  ⟨c.name, Dtype.dtInt64N,
   c.cells.map (fun x =>
     match cellQ x with
     | some q => some (Val.vNum ((roundHalfEven q : ℤ) : ℚ))
     | none => x)⟩

/-- One iteration of the final cast loop (lines 142-149): if the processed
name had an integer original dtype (`col in dtypes_originales` and
`is_integer_dtype`), round-and-cast that column in place. -/
def castIntStep (origDtypes : List (String × Dtype)) (acc : DataFrame) (m : String) :
    DataFrame :=
  match origDtypes.find? (fun pr => decide (pr.1 = m)) with
  | some pr =>
    if pr.2.isInteger then
      match acc.getCol? m with
      | some c => acc.setCol (castIntCol c)
      | none => acc
    else acc
  | none => acc

/-- The final loop (lines 142-149): every processed column whose original
dtype was an integer dtype is rounded and cast back to nullable `Int64`. -/
def castIntLoop (origDtypes : List (String × Dtype)) (names : List String)
    (df : DataFrame) : DataFrame :=
  names.foldl (castIntStep origDtypes) df

/-- The eligible column list (line 80 + line 87): the requested names of
numeric dtype, in request order. -/
def columnasValidas (df : DataFrame) (columnas : List String) : List String :=
  columnas.filter (fun m =>
    match df.getCol? m with
    | some c => c.dtype.isNumeric
    | none => false)

/-- The fixed context (`cols_num_df` / `cols_num_contexto`, lines 86 and 94):
names of all numeric columns of the original frame, in frame order. -/
def colsNumDf (df : DataFrame) : List String :=
  (df.cols.filter (fun c => c.dtype.isNumeric)).map Col.name

/-- `imputar_numericas(df, columnas, ...)`.

Line 80 evaluates `df[columnas]`; with pandas >= 1.0, list-label selection
raises `KeyError` when any requested label is absent, so the function fails
before the report-and-skip code of lines 81-84 (which is unreachable for
absent names) can run.  This is modelled by the first guard. -/
def imputar_numericas (df : DataFrame) (columnas : List String) (p : NumParams) :
    Except String DataFrame :=
  let dtypes_originales := df.cols.map (fun c => (c.name, c.dtype))
  if columnas.any (fun m => (df.getCol? m).isNone) then
    Except.error msgKeyError
  else
    let cv := columnasValidas df columnas
    if cv.isEmpty then Except.ok df
    else
      (numRun p (colsNumDf df) df cv).map (fun r =>
        castIntLoop dtypes_originales cv r.1)

/-- The branch taken for each eligible numeric column. -/
def numericBranches (df : DataFrame) (columnas : List String) (p : NumParams) :
    Except String (List NumBranch) :=
  if columnas.any (fun m => (df.getCol? m).isNone) then Except.error msgKeyError
  else
    (numRun p (colsNumDf df) df (columnasValidas df columnas)).map (fun r => r.2)

/-! ## Observation helpers -/

/-- The numeric value of the cell at row `i` of column `s` (`none` when the
column is absent or the cell is missing). -/
def getCellQ (df : DataFrame) (s : String) (i : ℕ) : Option ℚ :=
  match df.getCol? s with
  | some c => cellQ (c.cells.getD i none)
  | none => none

/-- The raw cell at row `i` of column `s` (`none` when the column is absent
or the cell is missing). -/
def getCellV (df : DataFrame) (s : String) (i : ℕ) : Option Val :=
  match df.getCol? s with
  | some c => c.cells.getD i none
  | none => none

/-- Row lengths agree with the frame's row count (the part of well-formedness
the numeric cell lemmas need). -/
def DataFrame.wfLen (df : DataFrame) : Prop :=
  ∀ c ∈ df.cols, c.cells.length = df.nrows

instance (df : DataFrame) : Decidable df.wfLen := by
  unfold DataFrame.wfLen; infer_instance

instance {e a : Type} [DecidableEq e] [DecidableEq a] : DecidableEq (Except e a) :=
  fun x y =>
  match x, y with
  | Except.error u, Except.error v =>
    if h : u = v then isTrue (by rw [h]) else isFalse (fun he => h (by injection he))
  | Except.ok u, Except.ok v =>
    if h : u = v then isTrue (by rw [h]) else isFalse (fun he => h (by injection he))
  | Except.error _, Except.ok _ => isFalse (fun he => nomatch he)
  | Except.ok _, Except.error _ => isFalse (fun he => nomatch he)

/-- Modelled from the spec: the indices of the "complete rows" of a dataset
(rows with no missing cell in any column), the donor pool named by the claim
"distance-weighted average of the `neighbor_count` nearest complete rows". -/
def completeRowIdx (df : DataFrame) : List ℕ :=
  (List.range df.nrows).filter
    (fun i => df.cols.all (fun c => (c.cells.getD i none).isSome))

/-- `dtypes_originales` (line 77): the name/dtype snapshot taken on entry. -/
def origDtypes (df : DataFrame) : List (String × Dtype) :=
  df.cols.map (fun c => (c.name, c.dtype))

/-! ## Concrete frames used by witnesses and counterexamples -/

/-- Shorthand for an observed numeric cell. -/
def numCell (q : ℚ) : Option Val := some (Val.vNum q)

/-- C1 failing input: only column "a" exists; "b" will also be requested. -/
def dfC1w : DataFrame := ⟨2, [⟨"a", Dtype.dtFloat, [numCell 1, numCell 2]⟩]⟩

/-- C2 frame: context columns x (complete), y (row 0 missing, ratio 1/5), z
(row 1 missing).  Row 1 is an incomplete donor near the receiver row 0; the
complete rows 2, 3, 4 all carry y = 5. -/
def dfC2w : DataFrame :=
  ⟨5, [⟨"x", Dtype.dtFloat, [numCell 0, numCell 1, numCell 2, numCell 3, numCell 10]⟩,
       ⟨"y", Dtype.dtFloat, [none, numCell 9, numCell 5, numCell 5, numCell 5]⟩,
       ⟨"z", Dtype.dtFloat, [numCell 10, none, numCell 10, numCell 10, numCell 10]⟩]⟩

/-- The y column of `dfC2w`. -/
def colC2y : Col :=
  ⟨"y", Dtype.dtFloat, [none, numCell 9, numCell 5, numCell 5, numCell 5]⟩

/-- Numeric-imputer parameters used on `dfC2w`: defaults except 2 neighbors. -/
def pC2 : NumParams := ⟨1/20, 1/5, 2, true, false⟩

/-- C6/C8 frame: "a" has 50% missing (high tier), "b" is a text column. -/
def dfC6w : DataFrame :=
  ⟨4, [⟨"a", Dtype.dtFloat, [numCell 1, none, none, numCell 3]⟩,
       ⟨"b", Dtype.dtObj,
        [some (Val.vStr ("u")), some (Val.vStr ("v")), none, some (Val.vStr ("u"))]⟩]⟩

/-- The a column of `dfC6w`. -/
def colC6a : Col := ⟨"a", Dtype.dtFloat, [numCell 1, none, none, numCell 3]⟩

/-- C7 frame: a nullable-integer column with one missing cell (25%, high tier,
median fill 2) that must come back as whole numbers in an integer dtype. -/
def dfC7w : DataFrame :=
  ⟨4, [⟨"a", Dtype.dtInt64N, [numCell 1, numCell 2, none, numCell 8]⟩]⟩

/-- The a column of `dfC7w`. -/
def colC7a : Col := ⟨"a", Dtype.dtInt64N, [numCell 1, numCell 2, none, numCell 8]⟩

/-- C9 frame: one text column; the eligible numeric set of any request is
empty. -/
def dfC9w : DataFrame := ⟨1, [⟨"s", Dtype.dtObj, [some (Val.vStr ("a"))]⟩]⟩

/-- The result of `imputar_numericas dfC6w ["a"]` with default parameters:
high tier, indicator appended, median (2) filled into the missing cells. -/
def dfC6res : DataFrame :=
  ⟨4, [⟨"a", Dtype.dtFloat, [numCell 1, numCell 2, numCell 2, numCell 3]⟩,
       ⟨"b", Dtype.dtObj,
        [some (Val.vStr ("u")), some (Val.vStr ("v")), none, some (Val.vStr ("u"))]⟩,
       ⟨"a_missing", Dtype.dtInt, [numCell 0, numCell 1, numCell 1, numCell 0]⟩]⟩

/-- Missing-cell count of a named column (0 when the column is absent). -/
def colMissingCount (df : DataFrame) (s : String) : ℕ :=
  match df.getCol? s with
  | some c => countMissing c.cells
  | none => 0

def dfC3w : DataFrame := ⟨2, [⟨"c", Dtype.dtObj, [some (Val.vStr ("A")), none]⟩]⟩

/-- C5 frame: five rows, two missing (ratio 2/5, strictly above the default
`high_missing_threshold` 1/5), with observed values present. -/
def dfC5hi : DataFrame :=
  ⟨5, [⟨"c", Dtype.dtObj,
    [some (Val.vStr ("A")), some (Val.vStr ("A")), some (Val.vStr ("B")),
     none, none]⟩]⟩

/-- The c column of `dfC5hi`. -/
def colC5hi : Col :=
  ⟨"c", Dtype.dtObj,
   [some (Val.vStr ("A")), some (Val.vStr ("A")), some (Val.vStr ("B")),
    none, none]⟩

def exCellsC4 : List (Option Val) :=
  (List.replicate 60 (some (Val.vStr ("A")))) ++
  (List.replicate 35 (some (Val.vStr ("B")))) ++
  (List.replicate 2 (some (Val.vStr ("C")))) ++ (List.replicate 3 none)

def dfC4w : DataFrame := ⟨100, [⟨"c", Dtype.dtObj, exCellsC4⟩]⟩

def dfC10w : DataFrame := ⟨0, [⟨"c", Dtype.dtObj, []⟩, ⟨"n", Dtype.dtFloat, []⟩]⟩

/-! ## Basic frame lemmas -/

theorem getCol?_name (df : DataFrame) (s : String) (c : Col)
    (h : df.getCol? s = some c) : c.name = s := by
  have := List.find?_some h
  simpa using this

theorem getCol?_mem (df : DataFrame) (s : String) (c : Col)
    (h : df.getCol? s = some c) : c ∈ df.cols :=
  List.mem_of_find?_eq_some h

theorem setCol_nrows (df : DataFrame) (c : Col) : (df.setCol c).nrows = df.nrows := by
  unfold DataFrame.setCol
  split <;> rfl

theorem find?_replace_self (l : List Col) (c : Col)
    (h : (l.find? (fun c0 => decide (c0.name = c.name))).isSome) :
    (l.map (fun c0 => if c0.name = c.name then c else c0)).find?
      (fun c0 => decide (c0.name = c.name)) = some c := by
  induction l with
  | nil => simp at h
  | cons a t ih =>
    by_cases ha : a.name = c.name
    · simp [ha]
    · simp only [List.map_cons, if_neg ha]
      rw [List.find?_cons_of_neg _ (by simpa using ha)]
      apply ih
      rwa [List.find?_cons_of_neg _ (by simpa using ha)] at h

theorem find?_replace_other (l : List Col) (c : Col) (s : String) (h : s ≠ c.name) :
    (l.map (fun c0 => if c0.name = c.name then c else c0)).find?
      (fun c0 => decide (c0.name = s)) = l.find? (fun c0 => decide (c0.name = s)) := by
  induction l with
  | nil => rfl
  | cons a t ih =>
    by_cases ha : a.name = c.name
    · have hna : ¬ a.name = s := by rw [ha]; exact fun hc => h hc.symm
      have hnc : ¬ c.name = s := fun hc => h hc.symm
      simp only [List.map_cons, if_pos ha]
      rw [List.find?_cons_of_neg _ (by simpa using hnc),
          List.find?_cons_of_neg _ (by simpa using hna)]
      exact ih
    · simp only [List.map_cons, if_neg ha]
      by_cases has : a.name = s
      · rw [List.find?_cons_of_pos _ (by simpa using has),
            List.find?_cons_of_pos _ (by simpa using has)]
      · rw [List.find?_cons_of_neg _ (by simpa using has),
            List.find?_cons_of_neg _ (by simpa using has)]
        exact ih

theorem getCol?_setCol_self (df : DataFrame) (c : Col) :
    (df.setCol c).getCol? c.name = some c := by
  unfold DataFrame.setCol
  by_cases h : df.hasCol c.name = true
  · rw [if_pos h]
    exact find?_replace_self df.cols c h
  · rw [if_neg h]
    unfold DataFrame.hasCol DataFrame.getCol? at *
    show (df.cols ++ [c]).find? (fun c0 => decide (c0.name = c.name)) = some c
    rw [List.find?_append]
    have hn : df.cols.find? (fun c0 => decide (c0.name = c.name)) = none := by
      cases hf : df.cols.find? (fun c0 => decide (c0.name = c.name)) with
      | none => rfl
      | some a => exact absurd (by simp [DataFrame.getCol?, hf]) h
    simp [hn]

theorem getCol?_setCol_other (df : DataFrame) (c : Col) (s : String) (h : s ≠ c.name) :
    (df.setCol c).getCol? s = df.getCol? s := by
  unfold DataFrame.setCol
  by_cases hc : df.hasCol c.name = true
  · rw [if_pos hc]
    exact find?_replace_other df.cols c s h
  · rw [if_neg hc]
    show (df.cols ++ [c]).find? (fun c0 => decide (c0.name = s)) = _
    rw [List.find?_append]
    cases hf : df.cols.find? (fun c0 => decide (c0.name = s)) with
    | none =>
      have hcn : ¬ c.name = s := fun hc' => h hc'.symm
      simp [DataFrame.getCol?, hf, hcn]
    | some a => simp [DataFrame.getCol?, hf]

theorem names_setCol_mem (df : DataFrame) (c : Col) (h : df.hasCol c.name = true) :
    (df.setCol c).names = df.names := by
  unfold DataFrame.setCol
  rw [if_pos h]
  show (df.cols.map _).map Col.name = _
  rw [List.map_map]
  apply List.map_congr_left
  intro a _
  by_cases ha : a.name = c.name
  · simp [Function.comp, ha]
  · simp [Function.comp, ha]

theorem names_setCol_new (df : DataFrame) (c : Col) (h : ¬ df.hasCol c.name = true) :
    (df.setCol c).names = df.names ++ [c.name] := by
  unfold DataFrame.setCol
  rw [if_neg h]
  show (df.cols ++ [c]).map Col.name = _
  simp [DataFrame.names]

theorem mem_setCol (df : DataFrame) (c c' : Col) (h : c' ∈ (df.setCol c).cols) :
    c' = c ∨ c' ∈ df.cols := by
  unfold DataFrame.setCol at h
  by_cases hc : df.hasCol c.name = true
  · rw [if_pos hc] at h
    rcases List.mem_map.mp h with ⟨a, ha, haeq⟩
    by_cases han : a.name = c.name
    · left; rw [← haeq]; simp [han]
    · right; rw [← haeq]; simpa [han] using ha
  · rw [if_neg hc] at h
    rcases List.mem_append.mp h with h1 | h1
    · right; exact h1
    · left; simpa using h1

theorem hasCol_getCol? (df : DataFrame) (s : String) :
    df.hasCol s = true ↔ ∃ c, df.getCol? s = some c := by
  unfold DataFrame.hasCol
  cases h : df.getCol? s <;> simp [h]

theorem mem_names_getCol? (df : DataFrame) (s : String) :
    s ∈ df.names ↔ ∃ c, df.getCol? s = some c := by
  constructor
  · intro hs
    rcases List.mem_map.mp hs with ⟨a, ha, haeq⟩
    have : (df.cols.find? (fun c0 => decide (c0.name = s))).isSome := by
      apply List.find?_isSome.mpr
      exact ⟨a, ha, by simpa using haeq⟩
    rcases Option.isSome_iff_exists.mp this with ⟨c, hc⟩
    exact ⟨c, hc⟩
  · rintro ⟨c, hc⟩
    exact List.mem_map.mpr ⟨c, getCol?_mem df s c hc, getCol?_name df s c hc⟩

theorem hasCol_names (df : DataFrame) (s : String) :
    df.hasCol s = true ↔ s ∈ df.names := by
  rw [hasCol_getCol?, mem_names_getCol?]

/-! ## fillna lemmas -/

theorem countMissing_fillna (cells : List (Option Val)) (v : Val) :
    countMissing (fillnaCells cells v) = 0 := by
  unfold countMissing fillnaCells
  rw [List.countP_eq_zero]
  intro a ha
  rcases List.mem_map.mp ha with ⟨x, _, hx⟩
  cases x with
  | none => rw [← hx]; simp
  | some w => rw [← hx]; simp

theorem length_fillna (cells : List (Option Val)) (v : Val) :
    (fillnaCells cells v).length = cells.length := by
  unfold fillnaCells
  exact List.length_map _ _

theorem fillna_present (cells : List (Option Val)) (v : Val) (i : ℕ) (w : Val)
    (h : cells.getD i none = some w) :
    (fillnaCells cells v).getD i none = some w := by
  unfold fillnaCells
  rcases lt_or_ge i cells.length with hi | hi
  · rw [List.getD_eq_getElem?_getD, List.getElem?_map]
    rw [List.getD_eq_getElem?_getD] at h
    cases hx : cells[i]? with
    | none => rw [hx] at h; simp at h
    | some x =>
      rw [hx] at h
      simp only [Option.getD_some] at h
      subst h
      simp [hx]
  · rw [List.getD_eq_getElem?_getD] at h
    rw [List.getElem?_eq_none (by omega)] at h
    simp at h

/-! ## Categorical step lemmas -/



/-- Master case split for one categorical iteration: a requested column either
does not exist (frame untouched) or every branch rewrites exactly that column
with a `fillna`. -/
theorem catStep_cases (p : CatParams) (df : DataFrame) (col : String) :
    (df.getCol? col = none ∧ catStep p df col = (df, CatBranch.colMissing)) ∨
    (∃ c v, df.getCol? col = some c ∧
      (catStep p df col).1 = df.setCol ⟨c.name, c.dtype, fillnaCells c.cells v⟩) := by
  unfold catStep
  cases h : df.getCol? col with
  | none => exact Or.inl ⟨rfl, rfl⟩
  | some c =>
    right
    dsimp only
    split_ifs <;>
      first
        | exact ⟨c, p.etiqueta_unknown, rfl, rfl⟩
        | exact ⟨c, (modaOf c.cells).getD p.etiqueta_unknown, rfl, rfl⟩

theorem catStep_nrows (p : CatParams) (df : DataFrame) (col : String) :
    (catStep p df col).1.nrows = df.nrows := by
  rcases catStep_cases p df col with ⟨_, he⟩ | ⟨c, v, _, he⟩
  · rw [he]
  · rw [he, setCol_nrows]

theorem catStep_names (p : CatParams) (df : DataFrame) (col : String) :
    (catStep p df col).1.names = df.names := by
  rcases catStep_cases p df col with ⟨_, he⟩ | ⟨c, v, hc, he⟩
  · rw [he]
  · rw [he]
    apply names_setCol_mem
    show df.hasCol (Col.mk c.name c.dtype (fillnaCells c.cells v)).name = true
    have : (Col.mk c.name c.dtype (fillnaCells c.cells v)).name = col := getCol?_name df col c hc
    rw [this]
    exact (hasCol_getCol? df col).mpr ⟨c, hc⟩

theorem catStep_other (p : CatParams) (df : DataFrame) (col s : String) (h : s ≠ col) :
    (catStep p df col).1.getCol? s = df.getCol? s := by
  rcases catStep_cases p df col with ⟨_, he⟩ | ⟨c, v, hc, he⟩
  · rw [he]
  · rw [he]
    apply getCol?_setCol_other
    show s ≠ (Col.mk c.name c.dtype (fillnaCells c.cells v)).name
    have : (Col.mk c.name c.dtype (fillnaCells c.cells v)).name = col := getCol?_name df col c hc
    rw [this]
    exact h

theorem catStep_missing_zero (p : CatParams) (df : DataFrame) (col : String)
    (h : df.hasCol col = true) :
    colMissingCount (catStep p df col).1 col = 0 := by
  rcases catStep_cases p df col with ⟨hn, _⟩ | ⟨c, v, hc, he⟩
  · rw [(hasCol_getCol? df col).mp h |>.choose_spec] at hn
    exact absurd hn (by simp)
  · have hname : (Col.mk c.name c.dtype (fillnaCells c.cells v)).name = col :=
      getCol?_name df col c hc
    unfold colMissingCount
    rw [he, ← hname, getCol?_setCol_self]
    exact countMissing_fillna c.cells v

theorem catStep_hasCol (p : CatParams) (df : DataFrame) (col s : String)
    (h : df.hasCol s = true) : (catStep p df col).1.hasCol s = true := by
  rw [hasCol_names] at h ⊢
  rw [catStep_names]
  exact h

theorem catStep_preserve_zero (p : CatParams) (df : DataFrame) (col s : String)
    (h : colMissingCount df s = 0) :
    colMissingCount (catStep p df col).1 s = 0 := by
  by_cases hs : s = col
  · subst hs
    by_cases hc : df.hasCol s = true
    · exact catStep_missing_zero p df s hc
    · rcases catStep_cases p df s with ⟨_, he⟩ | ⟨c, v, hc', _⟩
      · rw [he]; exact h
      · exact absurd ((hasCol_getCol? df s).mpr ⟨c, hc'⟩) hc
  · unfold colMissingCount
    rw [catStep_other p df col s hs]
    exact h

/-! ## Categorical run lemmas -/

theorem catRun_names (p : CatParams) (columnas : List String) (df : DataFrame) :
    (catRun p df columnas).1.names = df.names := by
  induction columnas generalizing df with
  | nil => rfl
  | cons a t ih =>
    show (catRun p (catStep p df a).1 t).1.names = df.names
    rw [ih, catStep_names]

theorem catRun_nrows (p : CatParams) (columnas : List String) (df : DataFrame) :
    (catRun p df columnas).1.nrows = df.nrows := by
  induction columnas generalizing df with
  | nil => rfl
  | cons a t ih =>
    show (catRun p (catStep p df a).1 t).1.nrows = df.nrows
    rw [ih, catStep_nrows]

theorem catRun_other (p : CatParams) (columnas : List String) (df : DataFrame)
    (s : String) (h : s ∉ columnas) :
    (catRun p df columnas).1.getCol? s = df.getCol? s := by
  induction columnas generalizing df with
  | nil => rfl
  | cons a t ih =>
    show (catRun p (catStep p df a).1 t).1.getCol? s = df.getCol? s
    rw [ih _ (fun hm => h (List.mem_cons_of_mem a hm)),
        catStep_other p df a s (fun he => h (he ▸ List.mem_cons_self a t))]

theorem catRun_preserve_zero (p : CatParams) (columnas : List String) (df : DataFrame)
    (s : String) (h : colMissingCount df s = 0) :
    colMissingCount (catRun p df columnas).1 s = 0 := by
  induction columnas generalizing df with
  | nil => exact h
  | cons a t ih =>
    exact ih (catStep p df a).1 (catStep_preserve_zero p df a s h)

theorem catRun_missing_zero (p : CatParams) (columnas : List String) (df : DataFrame)
    (col : String) (hmem : col ∈ columnas) (h : df.hasCol col = true) :
    colMissingCount (catRun p df columnas).1 col = 0 := by
  induction columnas generalizing df with
  | nil => cases hmem
  | cons a t ih =>
    rcases List.mem_cons.mp hmem with heq | ht
    · subst heq
      exact catRun_preserve_zero p t (catStep p df col).1 col
        (catStep_missing_zero p df col h)
    · exact ih (catStep p df a).1 ht (catStep_hasCol p df a col h)

theorem setCol_id (df : DataFrame) (c : Col) (hnodup : df.names.Nodup)
    (h : df.getCol? c.name = some c) : df.setCol c = df := by
  unfold DataFrame.setCol
  rw [if_pos (by exact (hasCol_getCol? df c.name).mpr ⟨c, h⟩)]
  have hinj := List.inj_on_of_nodup_map (f := Col.name) hnodup
  have hmem : c ∈ df.cols := getCol?_mem df c.name c h
  cases df with
  | mk n cols =>
    simp only [DataFrame.mk.injEq, true_and]
    have hm : List.map (fun c0 => if c0.name = c.name then c else c0) cols
        = List.map id cols := by
      apply List.map_congr_left
      intro a ha
      by_cases han : a.name = c.name
      · rw [if_pos han]
        exact (hinj ha hmem han).symm
      · rw [if_neg han]
        rfl
    rw [hm, List.map_id]

/-- With zero rows, every existing requested categorical column takes the
zero-observed-values branch and the `fillna` is a no-op. -/
theorem catStep_zero_rows (p : CatParams) (df : DataFrame) (col : String)
    (hwf : ∀ c ∈ df.cols, Col.wfb df.nrows c = true) (hnodup : df.names.Nodup)
    (hzero : df.nrows = 0) (halto : 0 ≤ p.umbral_nulos_alto) :
    (catStep p df col).1 = df ∧
    (df.hasCol col = true → (catStep p df col).2 = CatBranch.noValues) := by
  cases hc : df.getCol? col with
  | none =>
    unfold catStep
    rw [hc]
    exact ⟨rfl, fun hcol => by simp [DataFrame.hasCol, hc] at hcol⟩
  | some c =>
    have hcells : c.cells = [] := by
      have hw := hwf c (getCol?_mem df col c hc)
      unfold Col.wfb at hw
      simp only [Bool.and_eq_true, decide_eq_true_eq] at hw
      exact List.length_eq_zero.mp (by rw [hw.1.1, hzero])
    have hnot : ¬ 0 < df.nrows := by rw [hzero]; exact lt_irrefl 0
    have hd : (distinctVals c.cells).length = 0 := by
      rw [hcells]; rfl
    unfold catStep
    rw [hc]
    dsimp only
    rw [if_neg hnot, if_neg (not_lt.mpr halto), if_pos hd]
    constructor
    · show df.setCol ⟨c.name, c.dtype, fillnaCells c.cells p.etiqueta_unknown⟩ = df
      have hcol : (⟨c.name, c.dtype, fillnaCells c.cells p.etiqueta_unknown⟩ : Col) = c := by
        cases c with
        | mk nm dt cl =>
          simp only at hcells
          rw [hcells]
          rfl
      rw [hcol]
      exact setCol_id df c hnodup (by rw [getCol?_name df col c hc]; exact hc)
    · intro _
      rfl

theorem catRun_zero_rows (p : CatParams) (columnas : List String) (df : DataFrame)
    (hwf : ∀ c ∈ df.cols, Col.wfb df.nrows c = true) (hnodup : df.names.Nodup)
    (hzero : df.nrows = 0) (halto : 0 ≤ p.umbral_nulos_alto) :
    (catRun p df columnas).1 = df := by
  induction columnas with
  | nil => rfl
  | cons a t ih =>
    show (catRun p (catStep p df a).1 t).1 = df
    rw [(catStep_zero_rows p df a hwf hnodup hzero halto).1]
    exact ih

/-! ## Claim theorems: categorical imputer -/

/-- C3: for every dataset with at least one row and every column name passed to
the Categorical Imputer that exists in the dataset, after the call the column
still exists and has zero missing cells. -/
theorem C3_categorical_completeness (df : DataFrame) (columnas : List String)
    (p : CatParams) (col : String)
    (hrows : 0 < df.nrows) (hmem : col ∈ columnas) (hcol : df.hasCol col = true) :
    (imputar_categoricas df columnas p).hasCol col = true ∧
    colMissingCount (imputar_categoricas df columnas p) col = 0 := by
  constructor
  · rw [hasCol_names] at hcol ⊢
    unfold imputar_categoricas
    rw [catRun_names]
    exact hcol
  · exact catRun_missing_zero p columnas df col hmem hcol



/-- Witness for C3 at a concrete 2-row frame with one missing cell. -/
theorem C3_categorical_completeness_witness :
    (imputar_categoricas dfC3w ["c"] defaultCatParams).hasCol "c" = true ∧
    colMissingCount (imputar_categoricas dfC3w ["c"] defaultCatParams) "c" = 0 :=
  C3_categorical_completeness dfC3w ["c"] defaultCatParams "c" (by decide)
    (by decide) (by decide)

/-- C5: the automatic fallback branch of the Categorical Imputer fires
exactly when the missing ratio is strictly greater than
`high_missing_threshold` (the source's test is the strict
`porcentaje_nulos > umbral_nulos_alto`); when it fires, all missing cells are
filled with `fallback_label` without mode evaluation, and a column whose
ratio equals the threshold proceeds to mode evaluation (mode fill or
low-confidence fallback) instead. -/
theorem C5_fallback_iff_strict (p : CatParams) (df : DataFrame) (col : String)
    (c : Col) (hc : df.getCol? col = some c) (hrows : 0 < df.nrows)
    (hvals : ¬ (distinctVals c.cells).length = 0) :
    ((catStep p df col).2 = CatBranch.highMissing ↔
      p.umbral_nulos_alto < (countMissing c.cells : ℚ) / (df.nrows : ℚ)) ∧
    ((catStep p df col).2 = CatBranch.highMissing →
      (catStep p df col).1 =
        df.setCol ⟨c.name, c.dtype, fillnaCells c.cells p.etiqueta_unknown⟩) ∧
    ((countMissing c.cells : ℚ) / (df.nrows : ℚ) = p.umbral_nulos_alto →
      (catStep p df col).2 = CatBranch.modeFill ∨
      (catStep p df col).2 = CatBranch.fallbackFill) := by
  unfold catStep
  rw [hc]
  dsimp only
  rw [if_pos hrows]
  by_cases hgt : p.umbral_nulos_alto < (countMissing c.cells : ℚ) / (df.nrows : ℚ)
  · rw [if_pos hgt]
    exact ⟨⟨(fun _ => hgt), (fun _ => rfl)⟩, (fun _ => rfl),
      (fun heq => absurd (heq ▸ hgt) (lt_irrefl _))⟩
  · rw [if_neg hgt, if_neg hvals]
    split_ifs <;>
      exact ⟨⟨(fun he => absurd he (by simp)), (fun hlt => absurd hlt hgt)⟩,
        (fun he => absurd he (by simp)), (fun _ => by simp)⟩

/-- Witness for C5 at `dfC5hi` (ratio 2/5, strictly above the default 1/5):
the fallback branch fires, and the fill is the fallback label. -/
theorem C5_fallback_iff_strict_witness :
    ((catStep defaultCatParams dfC5hi "c").2 = CatBranch.highMissing ↔
      defaultCatParams.umbral_nulos_alto <
        (countMissing colC5hi.cells : ℚ) / (dfC5hi.nrows : ℚ)) ∧
    ((catStep defaultCatParams dfC5hi "c").2 = CatBranch.highMissing →
      (catStep defaultCatParams dfC5hi "c").1 =
        dfC5hi.setCol ⟨colC5hi.name, colC5hi.dtype,
          fillnaCells colC5hi.cells defaultCatParams.etiqueta_unknown⟩) ∧
    ((countMissing colC5hi.cells : ℚ) / (dfC5hi.nrows : ℚ) =
        defaultCatParams.umbral_nulos_alto →
      (catStep defaultCatParams dfC5hi "c").2 = CatBranch.modeFill ∨
      (catStep defaultCatParams dfC5hi "c").2 = CatBranch.fallbackFill) :=
  C5_fallback_iff_strict defaultCatParams dfC5hi "c" colC5hi
    (by decide) (by decide) (by decide)

/-- C10: on a zero-row dataset `imputar_categoricas` is total and the identity:
the guarded ratio is 0 (no division by zero), every existing requested column
takes the zero-observed-values branch, and the frame is returned unchanged. -/
theorem C10_zero_rows_total (df : DataFrame) (columnas : List String) (p : CatParams)
    (hwf : df.wf) (hzero : df.nrows = 0) (halto : 0 ≤ p.umbral_nulos_alto) :
    imputar_categoricas df columnas p = df ∧
    ∀ col ∈ columnas, df.hasCol col = true →
      (catStep p df col).2 = CatBranch.noValues := by
  constructor
  · exact catRun_zero_rows p columnas df hwf.1 hwf.2 hzero halto
  · intro col _ hcol
    exact (catStep_zero_rows p df col hwf.1 hwf.2 hzero halto).2 hcol

/-- C4: for a categorical column within the mode-evaluation range (missing
ratio at most `high_missing_threshold`, at least one observed value), the
applicable mode threshold is `mode_threshold_low_missing` iff the missing
ratio is at most `low_missing_threshold`; the missing cells are filled with
the mode exactly when `top_share` reaches that threshold and the margin
(`top_share - second_share`, both over total row count) reaches
`mode_margin_threshold`, and with `fallback_label` in every other case. -/
theorem C4_mode_rule (p : CatParams) (df : DataFrame) (col : String) (c : Col)
    (hc : df.getCol? col = some c) (hrows : 0 < df.nrows)
    (hratio : (countMissing c.cells : ℚ) / (df.nrows : ℚ) ≤ p.umbral_nulos_alto)
    (hvals : ¬ (distinctVals c.cells).length = 0) :
    imputar_categoricas df [col] p =
      df.setCol ⟨c.name, c.dtype, fillnaCells c.cells
        (if (if (countMissing c.cells : ℚ) / (df.nrows : ℚ) ≤ p.umbral_nulos_bajo
              then p.umbral_moda_bajo else p.umbral_moda_medio)
             ≤ (topCount c.cells : ℚ) / (df.nrows : ℚ)
           ∧ p.umbral_ventaja ≤ (topCount c.cells : ℚ) / (df.nrows : ℚ)
               - (secondCount c.cells : ℚ) / (df.nrows : ℚ)
         then (modaOf c.cells).getD p.etiqueta_unknown
         else p.etiqueta_unknown)⟩ ∧
    ((catStep p df col).2 = CatBranch.modeFill ↔
      (if (countMissing c.cells : ℚ) / (df.nrows : ℚ) ≤ p.umbral_nulos_bajo
         then p.umbral_moda_bajo else p.umbral_moda_medio)
        ≤ (topCount c.cells : ℚ) / (df.nrows : ℚ)
      ∧ p.umbral_ventaja ≤ (topCount c.cells : ℚ) / (df.nrows : ℚ)
          - (secondCount c.cells : ℚ) / (df.nrows : ℚ)) := by
  have hfirst : imputar_categoricas df [col] p = (catStep p df col).1 := rfl
  rw [hfirst]
  unfold catStep
  rw [hc]
  dsimp only
  rw [if_pos hrows]
  rw [if_neg (not_lt.mpr hratio), if_neg hvals]
  split_ifs with h1 h2 h3
  · exact ⟨rfl, ⟨fun _ => h2, fun _ => rfl⟩⟩
  · exact ⟨rfl, ⟨(fun heq => nomatch heq), (fun hcond => absurd hcond h2)⟩⟩
  · exact ⟨rfl, ⟨fun _ => h3, fun _ => rfl⟩⟩
  · exact ⟨rfl, ⟨(fun heq => nomatch heq), (fun hcond => absurd hcond h3)⟩⟩





/-- Witness for C4: the spec's example scenario (100 rows, 3 missing, A 60,
B 35, C 2) where `top_share = 0.60 >= 0.50` and `margin = 0.25 >= 0.20`, so
the missing cells are filled with the mode "A". -/
theorem C4_mode_rule_witness :
    imputar_categoricas dfC4w ["c"] defaultCatParams =
      dfC4w.setCol ⟨"c", Dtype.dtObj, fillnaCells exCellsC4 (Val.vStr ("A"))⟩ := by
  have h := C4_mode_rule defaultCatParams dfC4w "c" ⟨"c", Dtype.dtObj, exCellsC4⟩
    (by decide) (by decide) (by with_unfolding_all decide) (by decide)
  rw [h.1]
  with_unfolding_all decide



/-- Witness for C10 at a concrete zero-row frame, one requested column present
and one absent. -/
theorem C10_zero_rows_total_witness :
    imputar_categoricas dfC10w ["c", "d"] defaultCatParams = dfC10w ∧
    ∀ col ∈ ["c", "d"], dfC10w.hasCol col = true →
      (catStep defaultCatParams dfC10w col).2 = CatBranch.noValues :=
  C10_zero_rows_total dfC10w ["c", "d"] defaultCatParams (by decide) rfl
    (by with_unfolding_all decide)

/-! ## String helper lemmas -/

theorem string_append_right_cancel (a b t : String) (h : a ++ t = b ++ t) : a = b := by
  have hd : a.data ++ t.data = b.data ++ t.data := by
    have := congrArg String.data h
    simpa [String.data_append] using this
  cases a with
  | mk da =>
    cases b with
    | mk db =>
      have : da = db := by
        have h2 : da ++ t.data = db ++ t.data := hd
        exact List.append_cancel_right h2
      rw [this]

theorem string_ne_append_missing (s : String) : s ≠ s ++ "_missing" := by
  intro h
  have hl := congrArg String.length h
  rw [String.length_append] at hl
  have h8 : ("_missing" : String).length = 8 := rfl
  omega

/-! ## Numeric step lemmas -/

theorem medianFillCol_name (c : Col) : (medianFillCol c).name = c.name := rfl

theorem knnFillCol_name (df : DataFrame) (ctx : List String) (c : Col) (k : ℕ) :
    (knnFillCol df ctx c k).name = c.name := rfl

theorem indicatorCol_name (c : Col) : (indicatorCol c).name = c.name ++ "_missing" := rfl

theorem castIntCol_name (c : Col) : (castIntCol c).name = c.name := rfl

theorem except_map_ok {α β γ : Type} (f : α → β) (e : Except γ α) (y : β)
    (h : Except.map f e = Except.ok y) : ∃ x, e = Except.ok x ∧ f x = y := by
  cases e with
  | error err => exact absurd h (by simp [Except.map])
  | ok x => exact ⟨x, rfl, by simpa [Except.map] using h⟩

theorem numMedianBranch_ok (df0 : DataFrame) (c : Col) (df' : DataFrame)
    (h : numMedianBranch df0 c = Except.ok df') :
    df' = df0.setCol (medianFillCol c) := by
  unfold numMedianBranch at h
  split_ifs at h with hE
  injection h with h'
  exact h'.symm

theorem numKnnBranch_ok (df0 : DataFrame) (ctx : List String) (c : Col) (k : ℕ)
    (df' : DataFrame) (h : numKnnBranch df0 ctx c k = Except.ok df') :
    df' = df0.setCol (knnFillCol df0 ctx c k) := by
  unfold numKnnBranch at h
  split_ifs at h with hE1 hE2 hE3
  injection h with h'
  exact h'.symm

/-- Master shape of one successful numeric iteration: the processed column
exists, an indicator column is possibly written first, and then exactly the
processed column is rewritten by a median fill or a KNN fill. -/
theorem numStep_shape (p : NumParams) (ctx : List String) (df : DataFrame) (n : String)
    (df' : DataFrame) (b : NumBranch) (h : numStep p ctx df n = Except.ok (df', b)) :
    ∃ c d1, df.getCol? n = some c ∧
      (d1 = df ∨ d1 = df.setCol (indicatorCol c)) ∧
      (df' = d1.setCol (medianFillCol c) ∨
       df' = d1.setCol (knnFillCol d1 ctx c p.n_neighbors)) := by
  unfold numStep at h
  cases hc : df.getCol? n with
  | none => rw [hc] at h; exact absurd h (by simp)
  | some c =>
    rw [hc] at h
    dsimp only at h
    refine ⟨c, ?_⟩
    split_ifs at h
    all_goals obtain ⟨d0, hd0, hf⟩ := except_map_ok _ _ _ h
    all_goals have hdf : df' = d0 := (congrArg Prod.fst hf).symm
    all_goals first
      | exact ⟨df, rfl, Or.inl rfl,
          Or.inl (by rw [hdf, numMedianBranch_ok df c d0 hd0])⟩
      | exact ⟨df, rfl, Or.inl rfl,
          Or.inr (by rw [hdf, numKnnBranch_ok df ctx c p.n_neighbors d0 hd0])⟩
      | exact ⟨df.setCol (indicatorCol c), rfl, Or.inr rfl,
          Or.inl (by rw [hdf, numMedianBranch_ok (df.setCol (indicatorCol c)) c d0 hd0])⟩
      | exact ⟨df.setCol (indicatorCol c), rfl, Or.inr rfl,
          Or.inr (by rw [hdf,
            numKnnBranch_ok (df.setCol (indicatorCol c)) ctx c p.n_neighbors d0 hd0])⟩

theorem numStep_nrows (p : NumParams) (ctx : List String) (df : DataFrame) (n : String)
    (df' : DataFrame) (b : NumBranch) (h : numStep p ctx df n = Except.ok (df', b)) :
    df'.nrows = df.nrows := by
  rcases numStep_shape p ctx df n df' b h with ⟨c, d1, hc, hd1, hdf'⟩
  have hd1n : d1.nrows = df.nrows := by
    rcases hd1 with rfl | rfl
    · rfl
    · exact setCol_nrows df (indicatorCol c)
  rcases hdf' with rfl | rfl
  · rw [setCol_nrows, hd1n]
  · rw [setCol_nrows, hd1n]

theorem numStep_frame (p : NumParams) (ctx : List String) (df : DataFrame) (n : String)
    (df' : DataFrame) (b : NumBranch) (s : String)
    (h : numStep p ctx df n = Except.ok (df', b))
    (hs1 : s ≠ n) (hs2 : s ≠ n ++ "_missing") :
    df'.getCol? s = df.getCol? s := by
  rcases numStep_shape p ctx df n df' b h with ⟨c, d1, hc, hd1, hdf'⟩
  have hcn : c.name = n := getCol?_name df n c hc
  have hd1g : d1.getCol? s = df.getCol? s := by
    rcases hd1 with rfl | rfl
    · rfl
    · exact getCol?_setCol_other df (indicatorCol c) s (by rw [indicatorCol_name, hcn]; exact hs2)
  rcases hdf' with rfl | rfl
  · rw [getCol?_setCol_other d1 (medianFillCol c) s (by rw [medianFillCol_name, hcn]; exact hs1),
        hd1g]
  · rw [getCol?_setCol_other d1 (knnFillCol d1 ctx c p.n_neighbors) s
        (by rw [knnFillCol_name, hcn]; exact hs1), hd1g]

theorem numStep_names (p : NumParams) (ctx : List String) (df : DataFrame) (n : String)
    (df' : DataFrame) (b : NumBranch) (h : numStep p ctx df n = Except.ok (df', b)) :
    df'.names = df.names ∨ df'.names = df.names ++ [n ++ "_missing"] := by
  rcases numStep_shape p ctx df n df' b h with ⟨c, d1, hc, hd1, hdf'⟩
  have hcn : c.name = n := getCol?_name df n c hc
  have hnmem : n ∈ df.names := (mem_names_getCol? df n).mpr ⟨c, hc⟩
  have hd1n : d1.names = df.names ∨ d1.names = df.names ++ [n ++ "_missing"] := by
    rcases hd1 with rfl | rfl
    · exact Or.inl rfl
    · by_cases hhas : df.hasCol (indicatorCol c).name = true
      · exact Or.inl (names_setCol_mem df (indicatorCol c) hhas)
      · right
        rw [names_setCol_new df (indicatorCol c) hhas, indicatorCol_name, hcn]
  have hnmem1 : n ∈ d1.names := by
    rcases hd1n with he | he <;> rw [he]
    · exact hnmem
    · exact List.mem_append_left _ hnmem
  have hfill : ∀ c2 : Col, c2.name = n → (d1.setCol c2).names = d1.names := by
    intro c2 hc2
    apply names_setCol_mem
    rw [hc2, hasCol_names]
    exact hnmem1
  rcases hdf' with rfl | rfl
  · rw [hfill (medianFillCol c) (by rw [medianFillCol_name, hcn])]
    exact hd1n
  · rw [hfill (knnFillCol d1 ctx c p.n_neighbors) (by rw [knnFillCol_name, hcn])]
    exact hd1n

theorem numStep_hasCol (p : NumParams) (ctx : List String) (df : DataFrame) (n : String)
    (df' : DataFrame) (b : NumBranch) (s : String)
    (h : numStep p ctx df n = Except.ok (df', b)) (hs : df.hasCol s = true) :
    df'.hasCol s = true := by
  rw [hasCol_names] at hs ⊢
  rcases numStep_names p ctx df n df' b h with he | he <;> rw [he]
  · exact hs
  · exact List.mem_append_left _ hs

/-! ## Numeric run lemmas -/

theorem numRun_cons_ok (p : NumParams) (ctx : List String) (df : DataFrame)
    (n : String) (rest : List String) (df' : DataFrame) (bs : List NumBranch)
    (h : numRun p ctx df (n :: rest) = Except.ok (df', bs)) :
    ∃ d1 b1 bs1, numStep p ctx df n = Except.ok (d1, b1) ∧
      numRun p ctx d1 rest = Except.ok (df', bs1) ∧ bs = b1 :: bs1 := by
  unfold numRun at h
  cases hs : numStep p ctx df n with
  | error e => rw [hs] at h; exact absurd h (by simp)
  | ok r =>
    obtain ⟨rd, rb⟩ := r
    rw [hs] at h
    dsimp only at h
    cases hr : numRun p ctx rd rest with
    | error e => rw [hr] at h; exact absurd h (by simp)
    | ok rr =>
      obtain ⟨rrd, rrbs⟩ := rr
      rw [hr] at h
      dsimp only at h
      injection h with h'
      injection h' with ha hb
      exact ⟨rd, rb, rrbs, rfl, by rw [hr, ← ha], hb.symm⟩

theorem numRun_nrows (p : NumParams) (ctx l : List String) (df df' : DataFrame)
    (bs : List NumBranch) (h : numRun p ctx df l = Except.ok (df', bs)) :
    df'.nrows = df.nrows := by
  induction l generalizing df bs with
  | nil =>
    simp only [numRun] at h
    injection h with h'
    injection h' with ha _
    rw [← ha]
  | cons a t ih =>
    obtain ⟨d1, b1, bs1, h1, h2, rfl⟩ := numRun_cons_ok p ctx df a t df' bs h
    rw [ih d1 bs1 h2, numStep_nrows p ctx df a d1 b1 h1]

theorem numRun_frame (p : NumParams) (ctx l : List String) (df df' : DataFrame)
    (bs : List NumBranch) (s : String)
    (h : numRun p ctx df l = Except.ok (df', bs))
    (hs : ∀ m ∈ l, s ≠ m ∧ s ≠ m ++ "_missing") :
    df'.getCol? s = df.getCol? s := by
  induction l generalizing df bs with
  | nil =>
    simp only [numRun] at h
    injection h with h'
    injection h' with ha _
    rw [← ha]
  | cons a t ih =>
    obtain ⟨d1, b1, bs1, h1, h2, rfl⟩ := numRun_cons_ok p ctx df a t df' bs h
    rw [ih d1 bs1 h2 (fun m hm => hs m (List.mem_cons_of_mem a hm)),
        numStep_frame p ctx df a d1 b1 s h1 (hs a (List.mem_cons_self a t)).1
          (hs a (List.mem_cons_self a t)).2]

theorem numRun_names_ext (p : NumParams) (ctx l : List String) (df df' : DataFrame)
    (bs : List NumBranch) (h : numRun p ctx df l = Except.ok (df', bs)) :
    ∃ extra, df'.names = df.names ++ extra ∧
      ∀ e ∈ extra, ∃ m ∈ l, e = m ++ "_missing" := by
  induction l generalizing df bs with
  | nil =>
    simp only [numRun] at h
    injection h with h'
    injection h' with ha _
    exact ⟨[], by rw [← ha, List.append_nil], by intro e he; cases he⟩
  | cons a t ih =>
    obtain ⟨d1, b1, bs1, h1, h2, rfl⟩ := numRun_cons_ok p ctx df a t df' bs h
    obtain ⟨extra2, he2, hm2⟩ := ih d1 bs1 h2
    rcases numStep_names p ctx df a d1 b1 h1 with he1 | he1
    · refine ⟨extra2, by rw [he2, he1], fun e he => ?_⟩
      obtain ⟨m, hm, hme⟩ := hm2 e he
      exact ⟨m, List.mem_cons_of_mem a hm, hme⟩
    · refine ⟨(a ++ "_missing") :: extra2, by rw [he2, he1, List.append_assoc]; rfl,
        fun e he => ?_⟩
      rcases List.mem_cons.mp he with rfl | he'
      · exact ⟨a, List.mem_cons_self a t, rfl⟩
      · obtain ⟨m, hm, hme⟩ := hm2 e he'
        exact ⟨m, List.mem_cons_of_mem a hm, hme⟩

theorem numRun_hasCol (p : NumParams) (ctx l : List String) (df df' : DataFrame)
    (bs : List NumBranch) (s : String)
    (h : numRun p ctx df l = Except.ok (df', bs)) (hs : df.hasCol s = true) :
    df'.hasCol s = true := by
  rw [hasCol_names] at hs ⊢
  obtain ⟨extra, he, _⟩ := numRun_names_ext p ctx l df df' bs h
  rw [he]
  exact List.mem_append_left _ hs

/-! ## Cast loop lemmas -/

theorem castIntLoop_append (d : List (String × Dtype)) (l1 l2 : List String)
    (df : DataFrame) :
    castIntLoop d (l1 ++ l2) df = castIntLoop d l2 (castIntLoop d l1 df) := by
  unfold castIntLoop
  rw [List.foldl_append]

theorem castIntStep_frame (d : List (String × Dtype)) (df : DataFrame) (m s : String)
    (hs : s ≠ m) : (castIntStep d df m).getCol? s = df.getCol? s := by
  unfold castIntStep
  cases hd : d.find? (fun pr => decide (pr.1 = m)) with
  | none => rfl
  | some pr =>
    dsimp only
    split_ifs with hi
    · cases hc : df.getCol? m with
      | none => rfl
      | some c =>
        dsimp only
        apply getCol?_setCol_other
        rw [castIntCol_name, getCol?_name df m c hc]
        exact hs
    · rfl

theorem castIntStep_nrows (d : List (String × Dtype)) (df : DataFrame) (m : String) :
    (castIntStep d df m).nrows = df.nrows := by
  unfold castIntStep
  cases hd : d.find? (fun pr => decide (pr.1 = m)) with
  | none => rfl
  | some pr =>
    dsimp only
    split_ifs with hi
    · cases hc : df.getCol? m with
      | none => rfl
      | some c => exact setCol_nrows df (castIntCol c)
    · rfl

theorem castIntStep_names (d : List (String × Dtype)) (df : DataFrame) (m : String) :
    (castIntStep d df m).names = df.names := by
  unfold castIntStep
  cases hd : d.find? (fun pr => decide (pr.1 = m)) with
  | none => rfl
  | some pr =>
    dsimp only
    split_ifs with hi
    · cases hc : df.getCol? m with
      | none => rfl
      | some c =>
        apply names_setCol_mem
        rw [castIntCol_name, getCol?_name df m c hc]
        exact (hasCol_getCol? df m).mpr ⟨c, hc⟩
    · rfl

theorem castIntLoop_frame (d : List (String × Dtype)) (l : List String)
    (df : DataFrame) (s : String) (hs : s ∉ l) :
    (castIntLoop d l df).getCol? s = df.getCol? s := by
  induction l generalizing df with
  | nil => rfl
  | cons a t ih =>
    show (castIntLoop d t (castIntStep d df a)).getCol? s = _
    rw [ih (castIntStep d df a) (fun hm => hs (List.mem_cons_of_mem a hm)),
        castIntStep_frame d df a s (fun he => hs (he ▸ List.mem_cons_self a t))]

theorem castIntLoop_names (d : List (String × Dtype)) (l : List String)
    (df : DataFrame) : (castIntLoop d l df).names = df.names := by
  induction l generalizing df with
  | nil => rfl
  | cons a t ih =>
    show (castIntLoop d t (castIntStep d df a)).names = _
    rw [ih (castIntStep d df a), castIntStep_names]

theorem castIntLoop_nrows (d : List (String × Dtype)) (l : List String)
    (df : DataFrame) : (castIntLoop d l df).nrows = df.nrows := by
  induction l generalizing df with
  | nil => rfl
  | cons a t ih =>
    show (castIntLoop d t (castIntStep d df a)).nrows = _
    rw [ih (castIntStep d df a), castIntStep_nrows]

/-! ## Claim theorems: numeric imputer, error paths -/

/-- C1 (code bug, evaluation at the failing input): requesting the absent
column "b" makes line 80's `df[columnas]` raise `KeyError` (pandas >= 1.0), so
the call fails before the report-and-skip code of lines 81-84 can run; the
claim's report-skip-continue behaviour does not happen. -/
theorem C1_absent_column_keyerror :
    imputar_numericas dfC1w ["a", "b"] defaultNumParams = Except.error msgKeyError := rfl

/-- C9 counterexample: a request list with an absent name has an empty eligible
set, yet the call raises `KeyError` instead of returning the frame unchanged. -/
theorem C9_counterexample :
    columnasValidas dfC9w ["t"] = [] ∧
    imputar_numericas dfC9w ["t"] defaultNumParams = Except.error msgKeyError ∧
    imputar_numericas dfC9w ["t"] defaultNumParams ≠ Except.ok dfC9w :=
  ⟨rfl, rfl, fun h => nomatch h⟩

/-- C9 (amended): when every requested name exists in the dataset and the
eligible numeric set is empty, `imputar_numericas` returns the dataset
unchanged (a diagnostic only); this is not an error. -/
theorem C9_zero_eligible_unchanged (df : DataFrame) (columnas : List String)
    (p : NumParams) (hpresent : ∀ m ∈ columnas, df.hasCol m = true)
    (hempty : columnasValidas df columnas = []) :
    imputar_numericas df columnas p = Except.ok df := by
  unfold imputar_numericas
  have hany : (columnas.any (fun m => (df.getCol? m).isNone)) = false := by
    rw [List.any_eq_false]
    intro m hm
    have := hpresent m hm
    unfold DataFrame.hasCol at this
    simp only [Bool.not_eq_true]
    cases hg : df.getCol? m with
    | none => rw [hg] at this; exact absurd this (by simp)
    | some c => simp
  rw [hany]
  dsimp only
  rw [hempty]
  rfl

/-- Witness for the amended C9: the only requested column exists but is of
text dtype, so the eligible set is empty and the frame comes back unchanged. -/
theorem C9_zero_eligible_unchanged_witness :
    imputar_numericas dfC9w ["s"] defaultNumParams = Except.ok dfC9w :=
  C9_zero_eligible_unchanged dfC9w ["s"] defaultNumParams (by decide) (by decide)

/-! ## Cell-level lemmas -/

theorem getD_some_lt {α : Type} (l : List (Option α)) (i : ℕ) (x : α)
    (h : l.getD i none = some x) : i < l.length := by
  by_contra hge
  rw [List.getD_eq_getElem?_getD, List.getElem?_eq_none (by omega)] at h
  exact absurd h (by simp)

theorem getD_map_cellQ (l : List (Option Val)) (i : ℕ) :
    (l.map cellQ).getD i none = cellQ (l.getD i none) := by
  rw [List.getD_eq_getElem?_getD, List.getD_eq_getElem?_getD, List.getElem?_map]
  cases hx : l[i]? with
  | none => rfl
  | some x => rfl

theorem qcells_getD (c : Col) (i : ℕ) :
    c.qcells.getD i none = cellQ (c.cells.getD i none) :=
  getD_map_cellQ c.cells i

theorem medianFillCol_getD_present (c : Col) (i : ℕ) (q : ℚ)
    (h : cellQ (c.cells.getD i none) = some q) :
    (medianFillCol c).cells.getD i none = some (Val.vNum q) := by
  unfold medianFillCol
  dsimp only
  rw [List.getD_eq_getElem?_getD, List.getElem?_map]
  rw [List.getD_eq_getElem?_getD] at h
  cases hx : c.cells[i]? with
  | none =>
    rw [hx] at h
    exact absurd h (by simp [cellQ])
  | some x =>
    rw [hx] at h
    simp only [Option.getD_some] at h
    simp only [Option.map_some']
    rw [Option.getD_some]
    cases hcq : cellQ x with
    | none => rw [hcq] at h; exact absurd h (by simp)
    | some q' =>
      rw [hcq] at h
      injection h with hq
      subst hq
      simp [hcq]

theorem knnFillCol_getD (df : DataFrame) (ctx : List String) (c : Col) (k i : ℕ)
    (hi : i < df.nrows) :
    (knnFillCol df ctx c k).cells.getD i none =
      (match c.qcells.getD i none with
       | some q => some (Val.vNum q)
       | none => some (Val.vNum (knnFillValue (ctxMatrix df ctx)
           ((ctxMatrix df ctx).map scaleVar) c.qcells k i df.nrows))) := by
  unfold knnFillCol
  dsimp only
  rw [List.getD_eq_getElem?_getD, List.getElem?_map, List.getElem?_range hi]
  rfl

theorem medianFillCol_allNum (c : Col) :
    ∀ x ∈ (medianFillCol c).cells, ∃ q, x = some (Val.vNum q) := by
  intro x hx
  unfold medianFillCol at hx
  dsimp only at hx
  rcases List.mem_map.mp hx with ⟨y, _, hy⟩
  cases hcq : cellQ y with
  | none => rw [hcq] at hy; exact ⟨listMedian c.presentQ, hy.symm⟩
  | some q => rw [hcq] at hy; exact ⟨q, hy.symm⟩

theorem knnFillCol_allNum (df : DataFrame) (ctx : List String) (c : Col) (k : ℕ) :
    ∀ x ∈ (knnFillCol df ctx c k).cells, ∃ q, x = some (Val.vNum q) := by
  intro x hx
  unfold knnFillCol at hx
  dsimp only at hx
  rcases List.mem_map.mp hx with ⟨i, _, hy⟩
  cases hcq : c.qcells.getD i none with
  | none =>
    rw [hcq] at hy
    exact ⟨_, hy.symm⟩
  | some q => rw [hcq] at hy; exact ⟨q, hy.symm⟩

theorem castIntCol_allInt (c : Col)
    (hall : ∀ x ∈ c.cells, ∃ q, x = some (Val.vNum q)) :
    ∀ x ∈ (castIntCol c).cells, ∃ z : ℤ, x = some (Val.vNum (z : ℚ)) := by
  intro x hx
  unfold castIntCol at hx
  dsimp only at hx
  rcases List.mem_map.mp hx with ⟨y, hymem, hy⟩
  rcases hall y hymem with ⟨q, rfl⟩
  rw [show cellQ (some (Val.vNum q)) = some q from rfl] at hy
  exact ⟨roundHalfEven q, hy.symm⟩

/-- Half-to-even rounding is the identity on integers. -/
theorem roundHalfEven_int (z : ℤ) : roundHalfEven (z : ℚ) = z := by
  unfold roundHalfEven
  dsimp only
  rw [Int.floor_intCast, sub_self]
  rw [if_pos (by norm_num)]

/-- A rational with denominator 1 is fixed (as a rational) by round-and-cast. -/
theorem roundHalfEven_den_one (q : ℚ) (h : q.den = 1) :
    ((roundHalfEven q : ℤ) : ℚ) = q := by
  have hq : (q.num : ℚ) = q := by
    have := Rat.num_div_den q
    rw [h] at this
    simpa using this
  rw [← hq, roundHalfEven_int]

theorem castIntCol_getD_present (c : Col) (i : ℕ) (q : ℚ)
    (h : cellQ (c.cells.getD i none) = some q) :
    (castIntCol c).cells.getD i none =
      some (Val.vNum ((roundHalfEven q : ℤ) : ℚ)) := by
  unfold castIntCol
  dsimp only
  rw [List.getD_eq_getElem?_getD, List.getElem?_map]
  rw [List.getD_eq_getElem?_getD] at h
  cases hx : c.cells[i]? with
  | none =>
    rw [hx] at h
    exact absurd h (by simp [cellQ])
  | some x =>
    rw [hx] at h
    simp only [Option.getD_some] at h
    simp only [Option.map_some']
    rw [Option.getD_some]
    cases hcq : cellQ x with
    | none => rw [hcq] at h; exact absurd h (by simp)
    | some q' =>
      rw [hcq] at h
      injection h with hq
      subst hq
      simp [hcq]

/-! ## Lookup and decomposition lemmas -/

theorem getCol?_of_mem (df : DataFrame) (c0 : Col) (hnodup : df.names.Nodup)
    (h : c0 ∈ df.cols) : df.getCol? c0.name = some c0 := by
  cases hf : df.getCol? c0.name with
  | none =>
    unfold DataFrame.getCol? at hf
    rw [List.find?_eq_none] at hf
    exact absurd (by simp) (hf c0 h)
  | some c1 =>
    have h1 : c1.name = c0.name := getCol?_name df _ c1 hf
    have heq := List.inj_on_of_nodup_map hnodup (getCol?_mem df _ c1 hf) h h1
    rw [heq]

theorem find?_map_pair (l : List Col) (n : String) (c : Col)
    (hc : l.find? (fun c0 => decide (c0.name = n)) = some c) :
    (l.map (fun c0 => (c0.name, c0.dtype))).find? (fun pr => decide (pr.1 = n))
      = some (c.name, c.dtype) := by
  induction l with
  | nil => exact absurd hc (by simp)
  | cons a t ih =>
    by_cases ha : a.name = n
    · rw [List.find?_cons_of_pos _ (by simpa using ha)] at hc
      injection hc with h'
      subst h'
      simp only [List.map_cons]
      rw [List.find?_cons_of_pos _ (by simpa using ha)]
    · rw [List.find?_cons_of_neg _ (by simpa using ha)] at hc
      simp only [List.map_cons]
      rw [List.find?_cons_of_neg _ (by simpa using ha)]
      exact ih hc

theorem origDtypes_find (df : DataFrame) (n : String) (c : Col)
    (hc : df.getCol? n = some c) :
    (origDtypes df).find? (fun pr => decide (pr.1 = n)) = some (c.name, c.dtype) :=
  find?_map_pair df.cols n c hc

theorem numRun_append_ok (p : NumParams) (ctx l1 l2 : List String)
    (df df' : DataFrame) (bs : List NumBranch)
    (h : numRun p ctx df (l1 ++ l2) = Except.ok (df', bs)) :
    ∃ d1 bs1 bs2, numRun p ctx df l1 = Except.ok (d1, bs1) ∧
      numRun p ctx d1 l2 = Except.ok (df', bs2) := by
  induction l1 generalizing df bs with
  | nil => exact ⟨df, [], bs, rfl, h⟩
  | cons a t ih =>
    obtain ⟨d1, b1, bs1, h1, h2, rfl⟩ :=
      numRun_cons_ok p ctx df a (t ++ l2) df' bs h
    obtain ⟨d2, bs2, bs3, h3, h4⟩ := ih d1 bs1 h2
    refine ⟨d2, b1 :: bs2, bs3, ?_, h4⟩
    simp only [numRun, h1, h3]

theorem imputar_numericas_ok_decomp (df : DataFrame) (columnas : List String)
    (p : NumParams) (df' : DataFrame)
    (hok : imputar_numericas df columnas p = Except.ok df')
    (hcv : ¬ (columnasValidas df columnas).isEmpty = true) :
    ∃ dr bs,
      numRun p (colsNumDf df) df (columnasValidas df columnas) = Except.ok (dr, bs) ∧
      df' = castIntLoop (origDtypes df) (columnasValidas df columnas) dr := by
  unfold imputar_numericas at hok
  dsimp only at hok
  have hany : (columnas.any (fun m => (df.getCol? m).isNone)) = false := by
    by_contra han
    rw [Bool.not_eq_false] at han
    rw [if_pos han] at hok
    exact nomatch hok
  rw [if_neg (by rw [hany]; simp)] at hok
  rw [if_neg hcv] at hok
  obtain ⟨r, hr, hf⟩ := except_map_ok _ _ _ hok
  exact ⟨r.1, r.2, by rw [hr], by rw [← hf]; rfl⟩

/-- Splitting a nodup list at a member. -/
theorem nodup_split_at_mem {l : List String} {n : String}
    (hnodup : l.Nodup) (hmem : n ∈ l) :
    ∃ l1 l2, l = l1 ++ n :: l2 ∧ n ∉ l1 ∧ n ∉ l2 := by
  obtain ⟨l1, l2, rfl⟩ := List.append_of_mem hmem
  rw [List.nodup_append] at hnodup
  obtain ⟨_, hnd2, hdisj⟩ := hnodup
  refine ⟨l1, l2, rfl, ?_, ?_⟩
  · intro hn1
    exact hdisj hn1 (List.mem_cons_self n l2)
  · exact (List.nodup_cons.mp hnd2).1

/-! ## Length (row count) preservation -/

theorem medianFillCol_length (c : Col) :
    (medianFillCol c).cells.length = c.cells.length := by
  unfold medianFillCol
  exact List.length_map _ _

theorem knnFillCol_length (df : DataFrame) (ctx : List String) (c : Col) (k : ℕ) :
    (knnFillCol df ctx c k).cells.length = df.nrows := by
  unfold knnFillCol
  dsimp only
  rw [List.length_map, List.length_range]

theorem indicatorCol_length (c : Col) :
    (indicatorCol c).cells.length = c.cells.length := by
  unfold indicatorCol
  exact List.length_map _ _

theorem castIntCol_length (c : Col) :
    (castIntCol c).cells.length = c.cells.length := by
  unfold castIntCol
  exact List.length_map _ _

theorem setCol_wfLen (df : DataFrame) (c : Col) (hwl : df.wfLen)
    (hc : c.cells.length = df.nrows) : (df.setCol c).wfLen := by
  intro c0 hc0
  rw [setCol_nrows]
  rcases mem_setCol df c c0 hc0 with rfl | h0
  · exact hc
  · exact hwl c0 h0

theorem numStep_wfLen (p : NumParams) (ctx : List String) (df : DataFrame)
    (n : String) (df' : DataFrame) (b : NumBranch)
    (h : numStep p ctx df n = Except.ok (df', b)) (hwl : df.wfLen) : df'.wfLen := by
  rcases numStep_shape p ctx df n df' b h with ⟨c, d1, hc, hd1, hdf'⟩
  have hclen : c.cells.length = df.nrows := hwl c (getCol?_mem df n c hc)
  have hd1wl : d1.wfLen := by
    rcases hd1 with rfl | rfl
    · exact hwl
    · exact setCol_wfLen df (indicatorCol c) hwl (by rw [indicatorCol_length]; exact hclen)
  have hd1n : d1.nrows = df.nrows := by
    rcases hd1 with rfl | rfl
    · rfl
    · exact setCol_nrows df (indicatorCol c)
  rcases hdf' with rfl | rfl
  · exact setCol_wfLen d1 (medianFillCol c) hd1wl
      (by rw [medianFillCol_length, hclen, hd1n])
  · exact setCol_wfLen d1 (knnFillCol d1 ctx c p.n_neighbors) hd1wl
      (knnFillCol_length d1 ctx c p.n_neighbors)

theorem numRun_wfLen (p : NumParams) (ctx l : List String) (df df' : DataFrame)
    (bs : List NumBranch) (h : numRun p ctx df l = Except.ok (df', bs))
    (hwl : df.wfLen) : df'.wfLen := by
  induction l generalizing df bs with
  | nil =>
    simp only [numRun] at h
    injection h with h'
    injection h' with ha _
    rw [← ha]
    exact hwl
  | cons a t ih =>
    obtain ⟨d1, b1, bs1, h1, h2, rfl⟩ := numRun_cons_ok p ctx df a t df' bs h
    exact ih d1 bs1 h2 (numStep_wfLen p ctx df a d1 b1 h1 hwl)

/-! ## Branch-specific numeric step lemmas -/

/-- The moderate tier (`bajo < ratio <= alto`) is exactly the scale / KNN /
inverse-scale fill of the processed column, with all guards passing. -/
theorem numStep_knn_eq (p : NumParams) (ctx : List String) (df : DataFrame)
    (n : String) (c : Col) (hc : df.getCol? n = some c) (hrows : 0 < df.nrows)
    (hlow : ¬ ((countMissing c.cells : ℚ) / (df.nrows : ℚ) ≤ p.umbral_nulos_bajo))
    (hhigh : (countMissing c.cells : ℚ) / (df.nrows : ℚ) ≤ p.umbral_nulos_alto)
    (hk : ¬ p.n_neighbors = 0)
    (hctx : ((ctxMatrix df ctx).any (fun colv => (colv.filterMap id).isEmpty)) = false) :
    numStep p ctx df n =
      Except.ok (df.setCol (knnFillCol df ctx c p.n_neighbors), NumBranch.knn) := by
  unfold numStep
  rw [hc]
  dsimp only
  rw [if_pos hrows]
  rw [if_neg hlow, if_pos hhigh]
  unfold numKnnBranch
  rw [if_neg (by omega : ¬ df.nrows = 0), if_neg hk, if_neg (by rw [hctx]; simp)]
  rfl

/-- The high tier with `crear_indicador_missing` writes the indicator column
first; afterwards it holds 1 exactly at the rows where the processed column
was missing on entry to the step, and 0 elsewhere. -/
theorem numStep_high_indicator (p : NumParams) (ctx : List String) (df : DataFrame)
    (n : String) (c : Col) (df' : DataFrame) (b : NumBranch)
    (hc : df.getCol? n = some c) (hrows : 0 < df.nrows)
    (hba : p.umbral_nulos_bajo ≤ p.umbral_nulos_alto)
    (hhigh : p.umbral_nulos_alto < (countMissing c.cells : ℚ) / (df.nrows : ℚ))
    (hcrear : p.crear_indicador_missing = true)
    (h : numStep p ctx df n = Except.ok (df', b)) :
    b = NumBranch.highMissing ∧
    df'.getCol? (n ++ "_missing") = some (indicatorCol c) := by
  have hcn : c.name = n := getCol?_name df n c hc
  have hnlow : ¬ ((countMissing c.cells : ℚ) / (df.nrows : ℚ) ≤ p.umbral_nulos_bajo) :=
    fun hle => absurd (lt_of_le_of_lt (le_trans hle hba) hhigh) (lt_irrefl _)
  unfold numStep at h
  rw [hc] at h
  dsimp only at h
  rw [if_pos hrows, if_neg hnlow, if_neg (not_le.mpr hhigh), hcrear, if_pos rfl] at h
  have hindname : (indicatorCol c).name = n ++ "_missing" := by
    rw [indicatorCol_name, hcn]
  have hget : ∀ c2 : Col, c2.name = n →
      ((df.setCol (indicatorCol c)).setCol c2).getCol? (n ++ "_missing")
        = some (indicatorCol c) := by
    intro c2 hc2
    rw [getCol?_setCol_other _ c2 _
      (by rw [hc2]; exact fun he => string_ne_append_missing n he.symm)]
    rw [← hindname, getCol?_setCol_self]
  split_ifs at h with husar
  · obtain ⟨d0, hd0, hf⟩ := except_map_ok _ _ _ h
    have hb : NumBranch.highMissing = b := congrArg Prod.snd hf
    have hdf : d0 = df' := congrArg Prod.fst hf
    have hd0e := numKnnBranch_ok _ _ _ _ _ hd0
    refine ⟨hb.symm, ?_⟩
    rw [← hdf, hd0e]
    exact hget _ (by rw [knnFillCol_name, hcn])
  · obtain ⟨d0, hd0, hf⟩ := except_map_ok _ _ _ h
    have hb : NumBranch.highMissing = b := congrArg Prod.snd hf
    have hdf : d0 = df' := congrArg Prod.fst hf
    have hd0e := numMedianBranch_ok _ _ _ hd0
    refine ⟨hb.symm, ?_⟩
    rw [← hdf, hd0e]
    exact hget _ (by rw [medianFillCol_name, hcn])

/-- After a successful numeric step, the processed column exists, its dtype is
float64, and every one of its cells holds an observed number. -/
theorem numStep_self_col (p : NumParams) (ctx : List String) (df : DataFrame)
    (n : String) (df' : DataFrame) (b : NumBranch)
    (h : numStep p ctx df n = Except.ok (df', b)) :
    ∃ c c', df.getCol? n = some c ∧ df'.getCol? n = some c' ∧
      (∀ x ∈ c'.cells, ∃ q, x = some (Val.vNum q)) ∧
      c'.dtype = Dtype.dtFloat := by
  rcases numStep_shape p ctx df n df' b h with ⟨c, d1, hc, hd1, hdf'⟩
  have hcn : c.name = n := getCol?_name df n c hc
  rcases hdf' with rfl | rfl
  · refine ⟨c, medianFillCol c, hc, ?_, medianFillCol_allNum c, rfl⟩
    rw [← show (medianFillCol c).name = n from by rw [medianFillCol_name, hcn]]
    exact getCol?_setCol_self d1 (medianFillCol c)
  · refine ⟨c, knnFillCol d1 ctx c p.n_neighbors, hc, ?_,
      knnFillCol_allNum d1 ctx c p.n_neighbors, rfl⟩
    rw [← show (knnFillCol d1 ctx c p.n_neighbors).name = n from by
      rw [knnFillCol_name, hcn]]
    exact getCol?_setCol_self d1 (knnFillCol d1 ctx c p.n_neighbors)

/-! ## Observed-value preservation -/

theorem cellQ_some_getD_lt (c : Col) (i : ℕ) (q : ℚ)
    (hv : cellQ (c.cells.getD i none) = some q) : i < c.cells.length := by
  cases hx : c.cells.getD i none with
  | none => rw [hx] at hv; exact absurd hv (by simp [cellQ])
  | some w => exact getD_some_lt c.cells i w hx

theorem wf_wfLen (df : DataFrame) (h : df.wf) : df.wfLen := by
  intro c hc
  have hw := h.1 c hc
  unfold Col.wfb at hw
  simp only [Bool.and_eq_true, decide_eq_true_eq] at hw
  exact hw.1.1

theorem wf_int_cells (df : DataFrame) (h : df.wf) (c : Col) (hc : c ∈ df.cols)
    (hint : c.dtype.isInteger = true) (i : ℕ) (q : ℚ)
    (hv : cellQ (c.cells.getD i none) = some q) : q.den = 1 := by
  have hw := h.1 c hc
  unfold Col.wfb at hw
  simp only [Bool.and_eq_true, decide_eq_true_eq] at hw
  have hall := hw.2
  rw [if_pos hint, List.all_eq_true] at hall
  have hlt : i < c.cells.length := cellQ_some_getD_lt c i q hv
  have hcell : c.cells.getD i none = some (Val.vNum q) := by
    cases hx : c.cells.getD i none with
    | none => rw [hx] at hv; exact absurd hv (by simp [cellQ])
    | some w =>
      rw [hx] at hv
      cases w with
      | vStr t => exact absurd hv (by simp [cellQ])
      | vNum q' =>
        have : q' = q := by
          have := hv
          simp only [cellQ] at this
          injection this
        rw [this]
  have hmem : c.cells.getD i none ∈ c.cells := by
    rw [List.getD_eq_getElem?_getD, List.getElem?_eq_getElem hlt]
    exact List.getElem_mem hlt
  exact of_decide_eq_true (hall _ (hcell ▸ hmem))

/-- One numeric iteration never changes an observed numeric cell of any column
other than a (colliding) indicator target. -/
theorem numStep_cellQ_preserved (p : NumParams) (ctx : List String) (df : DataFrame)
    (n : String) (df' : DataFrame) (b : NumBranch) (s : String) (i : ℕ) (q : ℚ)
    (h : numStep p ctx df n = Except.ok (df', b)) (hwl : df.wfLen)
    (hs2 : s ≠ n ++ "_missing") (hv : getCellQ df s i = some q) :
    getCellQ df' s i = some q := by
  by_cases hs1 : s = n
  · subst hs1
    rcases numStep_shape p ctx df s df' b h with ⟨c, d1, hc, hd1, hdf'⟩
    have hcn : c.name = s := getCol?_name df s c hc
    unfold getCellQ at hv
    rw [hc] at hv
    have hi : i < c.cells.length := cellQ_some_getD_lt c i q hv
    have hirows : i < df.nrows := by
      rw [← hwl c (getCol?_mem df s c hc)]
      exact hi
    have hd1n : d1.nrows = df.nrows := by
      rcases hd1 with rfl | rfl
      · rfl
      · exact setCol_nrows df (indicatorCol c)
    unfold getCellQ
    dsimp only at hv
    rcases hdf' with rfl | rfl
    · rw [← show (medianFillCol c).name = s from by rw [medianFillCol_name, hcn],
        getCol?_setCol_self]
      dsimp only
      rw [medianFillCol_getD_present c i q hv]
      rfl
    · rw [← show (knnFillCol d1 ctx c p.n_neighbors).name = s from by
        rw [knnFillCol_name, hcn], getCol?_setCol_self]
      show cellQ ((knnFillCol d1 ctx c p.n_neighbors).cells.getD i none) = some q
      rw [knnFillCol_getD d1 ctx c p.n_neighbors i (by rw [hd1n]; exact hirows)]
      rw [qcells_getD, hv]
      rfl
  · unfold getCellQ at hv ⊢
    rw [numStep_frame p ctx df n df' b s h hs1 hs2]
    exact hv

theorem numRun_cellQ_preserved (p : NumParams) (ctx l : List String)
    (df df' : DataFrame) (bs : List NumBranch) (s : String) (i : ℕ) (q : ℚ)
    (h : numRun p ctx df l = Except.ok (df', bs)) (hwl : df.wfLen)
    (hs2 : ∀ m ∈ l, s ≠ m ++ "_missing") (hv : getCellQ df s i = some q) :
    getCellQ df' s i = some q := by
  induction l generalizing df bs with
  | nil =>
    simp only [numRun] at h
    injection h with h'
    injection h' with ha _
    rw [← ha]
    exact hv
  | cons a t ih =>
    obtain ⟨d1, b1, bs1, h1, h2, rfl⟩ := numRun_cons_ok p ctx df a t df' bs h
    exact ih d1 bs1 h2 (numStep_wfLen p ctx df a d1 b1 h1 hwl)
      (fun m hm => hs2 m (List.mem_cons_of_mem a hm))
      (numStep_cellQ_preserved p ctx df a d1 b1 s i q h1 hwl
        (hs2 a (List.mem_cons_self a t)) hv)

/-- A cast iteration whose lookup is not an integer dtype leaves the frame
unchanged. -/
theorem castIntStep_skip (d : List (String × Dtype)) (df : DataFrame) (m : String)
    (hni : ∀ pr, (d.find? (fun x => decide (x.1 = m))) = some pr →
      pr.2.isInteger = false) :
    castIntStep d df m = df := by
  unfold castIntStep
  cases hd : d.find? (fun x => decide (x.1 = m)) with
  | none => rfl
  | some pr =>
    dsimp only
    rw [if_neg (by rw [hni pr hd]; simp)]

/-- A cast iteration preserves an observed whole-numbered cell. -/
theorem castIntStep_cellQ_whole (d : List (String × Dtype)) (df : DataFrame)
    (m s : String) (i : ℕ) (q : ℚ) (hq : q.den = 1)
    (hv : getCellQ df s i = some q) :
    getCellQ (castIntStep d df m) s i = some q := by
  by_cases hs : s = m
  · subst hs
    unfold castIntStep
    cases hd : d.find? (fun x => decide (x.1 = s)) with
    | none => exact hv
    | some pr =>
      dsimp only
      split_ifs with hi
      · cases hc : df.getCol? s with
        | none => exact hv
        | some c =>
          dsimp only
          unfold getCellQ at hv ⊢
          rw [hc] at hv
          dsimp only at hv
          rw [← show (castIntCol c).name = s from by
            rw [castIntCol_name, getCol?_name df s c hc], getCol?_setCol_self]
          dsimp only
          rw [castIntCol_getD_present c i q hv]
          show some ((roundHalfEven q : ℤ) : ℚ) = some q
          rw [roundHalfEven_den_one q hq]
      · exact hv
  · unfold getCellQ at hv ⊢
    rw [castIntStep_frame d df m s hs]
    exact hv

theorem castIntLoop_cellQ_preserved (d : List (String × Dtype)) (l : List String)
    (df : DataFrame) (s : String) (i : ℕ) (q : ℚ)
    (hv : getCellQ df s i = some q)
    (hcase : q.den = 1 ∨
      (∀ pr, (d.find? (fun x => decide (x.1 = s))) = some pr →
        pr.2.isInteger = false)) :
    getCellQ (castIntLoop d l df) s i = some q := by
  induction l generalizing df with
  | nil => exact hv
  | cons a t ih =>
    show getCellQ (castIntLoop d t (castIntStep d df a)) s i = some q
    apply ih
    by_cases hs : s = a
    · subst hs
      rcases hcase with hq | hni
      · exact castIntStep_cellQ_whole d df s s i q hq hv
      · rw [castIntStep_skip d df s hni]
        exact hv
    · unfold getCellQ at hv ⊢
      rw [castIntStep_frame d df a s hs]
      exact hv

/-! ## Claim C2: the moderate-missingness KNN tier -/

/-- C2 counterexample: on `dfC2w` (y has missing ratio exactly 1/5, so the
moderate tier fires with 2 neighbors), the code fills y at row 0 with 7 — the
unweighted mean of the two nearest donors, rows 1 and 2, of which row 1 is
incomplete (z missing).  The complete rows of the frame are rows 2, 3, 4 and
each carries y = 5, so every weighted average (with any weights) of the
feature over nearest complete rows equals 5 ≠ 7: the claim's "distance-weighted
average ... from the nearest complete rows" does not describe the code, whose
`KNNImputer` defaults to uniform weights and admits incomplete donor rows. -/
theorem C2_distance_weighted_counterexample :
    Except.map (fun d => getCellQ d "y" 0) (imputar_numericas dfC2w ["y"] pC2)
      = Except.ok (some 7) ∧
    completeRowIdx dfC2w = [2, 3, 4] ∧
    getCellQ dfC2w "y" 2 = some 5 ∧ getCellQ dfC2w "y" 3 = some 5 ∧
    getCellQ dfC2w "y" 4 = some 5 ∧ (7 : ℚ) ≠ 5 := by
  with_unfolding_all decide

/-- C2 (amended): for every eligible numeric column (of any numeric dtype)
whose missing ratio lies strictly above `low_missing_threshold` and at most
`high_missing_threshold`, the imputer standardizes every numeric column,
imputes in standardized space with `KNNImputer` and inverts the
standardization; observed cells of the column keep their values, each missing
cell receives the unweighted mean of the column's values at the
`neighbor_count` nearest rows having the column observed (nearness by
`nan_euclidean` distance in standardized space, incomplete donors admitted),
and only this column is changed by the call — except that when the column's
original dtype is an integer dtype the final cast step (lines 142-149)
additionally rounds the adopted values half-to-even and casts the column to
nullable `Int64` (observed whole values coming back unchanged). -/
theorem C2_knn_moderate (df : DataFrame) (n : String) (c : Col) (p : NumParams)
    (hwf : df.wf)
    (hc : df.getCol? n = some c) (hnum : c.dtype.isNumeric = true)
    (hrows : 0 < df.nrows) (hk : ¬ p.n_neighbors = 0)
    (hctx : ((ctxMatrix df (colsNumDf df)).any
      (fun colv => (colv.filterMap id).isEmpty)) = false)
    (hlow : ¬ ((countMissing c.cells : ℚ) / (df.nrows : ℚ) ≤ p.umbral_nulos_bajo))
    (hhigh : (countMissing c.cells : ℚ) / (df.nrows : ℚ) ≤ p.umbral_nulos_alto) :
    ∃ R, imputar_numericas df [n] p = Except.ok R ∧
      R = (if c.dtype.isInteger = true
           then (df.setCol (knnFillCol df (colsNumDf df) c p.n_neighbors)).setCol
                  (castIntCol (knnFillCol df (colsNumDf df) c p.n_neighbors))
           else df.setCol (knnFillCol df (colsNumDf df) c p.n_neighbors)) ∧
      R.names = df.names ∧
      (∀ c0 ∈ df.cols, c0.name ≠ n → R.getCol? c0.name = some c0) ∧
      (∀ i, i < df.nrows →
        getCellQ R n i =
          (match c.qcells.getD i none with
           | some q => some q
           | none =>
             if c.dtype.isInteger = true then
               some ((roundHalfEven (knnFillValue (ctxMatrix df (colsNumDf df))
                 ((ctxMatrix df (colsNumDf df)).map scaleVar) c.qcells
                 p.n_neighbors i df.nrows) : ℤ) : ℚ)
             else
               some (knnFillValue (ctxMatrix df (colsNumDf df))
                 ((ctxMatrix df (colsNumDf df)).map scaleVar) c.qcells
                 p.n_neighbors i df.nrows))) := by
  have hcn : c.name = n := getCol?_name df n c hc
  have hnmem : n ∈ df.names := (mem_names_getCol? df n).mpr ⟨c, hc⟩
  have hcv : columnasValidas df [n] = [n] := by
    unfold columnasValidas
    simp [List.filter, hc, hnum]
  have hstep := numStep_knn_eq p (colsNumDf df) df n c hc hrows hlow hhigh hk hctx
  have hrun : numRun p (colsNumDf df) df [n] =
      Except.ok (df.setCol (knnFillCol df (colsNumDf df) c p.n_neighbors),
        [NumBranch.knn]) := by
    simp only [numRun, hstep]
  have hknname : (knnFillCol df (colsNumDf df) c p.n_neighbors).name = n := by
    rw [knnFillCol_name, hcn]
  have hinner : (df.setCol (knnFillCol df (colsNumDf df) c p.n_neighbors)).names
      = df.names :=
    names_setCol_mem df _ (by rw [hknname, hasCol_names]; exact hnmem)
  have heq0 : imputar_numericas df [n] p =
      Except.ok (castIntStep (origDtypes df)
        (df.setCol (knnFillCol df (colsNumDf df) c p.n_neighbors)) n) := by
    unfold imputar_numericas
    dsimp only
    rw [if_neg (by simp [hc])]
    rw [hcv]
    rw [if_neg (by simp)]
    rw [hrun]
    rfl
  by_cases hint : c.dtype.isInteger = true
  · refine ⟨(df.setCol (knnFillCol df (colsNumDf df) c p.n_neighbors)).setCol
      (castIntCol (knnFillCol df (colsNumDf df) c p.n_neighbors)),
      ?_, by rw [if_pos hint], ?_, ?_, ?_⟩
    · rw [heq0]
      unfold castIntStep
      rw [origDtypes_find df n c hc]
      dsimp only
      rw [if_pos (show (c.name, c.dtype).2.isInteger = true from hint)]
      rw [show (df.setCol (knnFillCol df (colsNumDf df) c p.n_neighbors)).getCol? n
          = some (knnFillCol df (colsNumDf df) c p.n_neighbors) from by
        rw [← hknname, getCol?_setCol_self]]
    · rw [names_setCol_mem _ _ (by
        rw [castIntCol_name, hknname, hasCol_names, hinner]; exact hnmem)]
      exact hinner
    · intro c0 hc0 hne
      rw [getCol?_setCol_other _ _ _ (by rw [castIntCol_name, hknname]; exact hne),
          getCol?_setCol_other _ _ _ (by rw [hknname]; exact hne)]
      exact getCol?_of_mem df c0 hwf.2 hc0
    · intro i hi
      unfold getCellQ
      rw [← show (castIntCol (knnFillCol df (colsNumDf df) c p.n_neighbors)).name = n
          from by rw [castIntCol_name, hknname], getCol?_setCol_self]
      show cellQ ((castIntCol (knnFillCol df (colsNumDf df) c
        p.n_neighbors)).cells.getD i none) = _
      have hK := knnFillCol_getD df (colsNumDf df) c p.n_neighbors i hi
      cases hq : c.qcells.getD i none with
      | some q =>
        rw [hq] at hK
        have hcq : cellQ ((knnFillCol df (colsNumDf df) c
            p.n_neighbors).cells.getD i none) = some q := by
          rw [hK]
          rfl
        rw [castIntCol_getD_present _ i q hcq]
        show some ((roundHalfEven q : ℤ) : ℚ) = some q
        rw [roundHalfEven_den_one q
          (wf_int_cells df hwf c (getCol?_mem df n c hc) hint i q
            (by rw [← qcells_getD]; exact hq))]
      | none =>
        rw [hq] at hK
        have hcq : cellQ ((knnFillCol df (colsNumDf df) c
            p.n_neighbors).cells.getD i none)
            = some (knnFillValue (ctxMatrix df (colsNumDf df))
                ((ctxMatrix df (colsNumDf df)).map scaleVar) c.qcells
                p.n_neighbors i df.nrows) := by
          rw [hK]
          rfl
        rw [castIntCol_getD_present _ i _ hcq]
        rw [if_pos hint]
        rfl
  · refine ⟨df.setCol (knnFillCol df (colsNumDf df) c p.n_neighbors),
      ?_, by rw [if_neg hint], hinner, ?_, ?_⟩
    · rw [heq0]
      rw [castIntStep_skip _ _ _ (fun pr hpr => by
        rw [origDtypes_find df n c hc] at hpr
        injection hpr with hpr'
        rw [← hpr']
        exact Bool.not_eq_true _ ▸ hint)]
    · intro c0 hc0 hne
      rw [getCol?_setCol_other _ _ _ (by rw [hknname]; exact hne)]
      exact getCol?_of_mem df c0 hwf.2 hc0
    · intro i hi
      unfold getCellQ
      rw [← hknname, getCol?_setCol_self]
      show cellQ ((knnFillCol df (colsNumDf df) c p.n_neighbors).cells.getD i none) = _
      rw [knnFillCol_getD df (colsNumDf df) c p.n_neighbors i hi]
      cases hq : c.qcells.getD i none with
      | none =>
        rw [if_neg hint]
        rfl
      | some q => rfl

/-- Witness for the amended C2 at `dfC2w` (float column, so the cast branch of
the conclusion is inactive): each hypothesis is discharged by computation and
the call equals the KNN fill of the y column. -/
theorem C2_knn_moderate_witness :
    imputar_numericas dfC2w ["y"] pC2 =
      Except.ok (dfC2w.setCol (knnFillCol dfC2w (colsNumDf dfC2w) colC2y
        pC2.n_neighbors)) := by
  obtain ⟨R, h1, h2, -⟩ := C2_knn_moderate dfC2w "y" colC2y pC2
    (by decide) (by decide) rfl (by decide) (by decide) (by decide)
    (by with_unfolding_all decide) (by with_unfolding_all decide)
  rw [h1, h2]
  with_unfolding_all decide

theorem indicatorCol_getD (c : Col) (i : ℕ) (hi : i < c.cells.length) :
    (indicatorCol c).cells.getD i none =
      some (Val.vNum (if (c.cells.getD i none).isNone then 1 else 0)) := by
  unfold indicatorCol
  dsimp only
  rw [List.getD_eq_getElem?_getD, List.getElem?_map, List.getD_eq_getElem?_getD]
  cases hx : c.cells[i]? with
  | none =>
    have hne : ¬ c.cells[i]? = none := by
      intro hn
      rw [List.getElem?_eq_none_iff] at hn
      omega
    exact absurd hx hne
  | some x => rfl

/-- A categorical iteration never removes an observed cell value. -/
theorem catStep_cellV_preserved (p : CatParams) (df : DataFrame) (col s : String)
    (i : ℕ) (w : Val) (hv : getCellV df s i = some w) :
    getCellV (catStep p df col).1 s i = some w := by
  by_cases hs : s = col
  · subst hs
    rcases catStep_cases p df s with ⟨hn, he⟩ | ⟨c, v, hc, he⟩
    · rw [he]; exact hv
    · unfold getCellV at hv ⊢
      rw [hc] at hv
      have hcn : c.name = s := getCol?_name df s c hc
      rw [he, ← show (Col.mk c.name c.dtype (fillnaCells c.cells v)).name = s from hcn,
        getCol?_setCol_self]
      show (fillnaCells c.cells v).getD i none = some w
      exact fillna_present c.cells v i w hv
  · unfold getCellV at hv ⊢
    rw [catStep_other p df col s hs]
    exact hv

theorem catRun_cellV_preserved (p : CatParams) (columnas : List String)
    (df : DataFrame) (s : String) (i : ℕ) (w : Val)
    (hv : getCellV df s i = some w) :
    getCellV (catRun p df columnas).1 s i = some w := by
  induction columnas generalizing df with
  | nil => exact hv
  | cons a t ih =>
    exact ih (catStep p df a).1 (catStep_cellV_preserved p df a s i w hv)

/-! ## Claim C6: indicator creation in the high tier -/

/-- C6: with `add_missing_indicator` true, a numeric column whose missing
ratio strictly exceeds `high_missing_threshold` gets an indicator column
(source name + "_missing", created before the fill) that is 1 exactly at the
rows where the source column was missing on entry and 0 elsewhere, and this
column still exists when the call returns.  Freshness of the convention names
and a duplicate-free request list rule out label collisions. -/
theorem C6_indicator_creation (df : DataFrame) (columnas : List String)
    (p : NumParams) (n : String) (c : Col) (df' : DataFrame)
    (hwl : df.wfLen) (hnodupC : columnas.Nodup)
    (hfresh : ∀ m ∈ columnas, (m ++ "_missing") ∉ df.names)
    (hmem : n ∈ columnas) (hc : df.getCol? n = some c)
    (hnum : c.dtype.isNumeric = true) (hrows : 0 < df.nrows)
    (hba : p.umbral_nulos_bajo ≤ p.umbral_nulos_alto)
    (hhigh : p.umbral_nulos_alto < (countMissing c.cells : ℚ) / (df.nrows : ℚ))
    (hcrear : p.crear_indicador_missing = true)
    (hok : imputar_numericas df columnas p = Except.ok df') :
    df'.getCol? (n ++ "_missing") = some (indicatorCol c) ∧
    ∀ i, i < df.nrows →
      getCellQ df' (n ++ "_missing") i =
        some (if (c.cells.getD i none).isNone then 1 else 0) := by
  have hnames : n ∈ df.names := (mem_names_getCol? df n).mpr ⟨c, hc⟩
  have hcvmem : n ∈ columnasValidas df columnas := by
    unfold columnasValidas
    refine List.mem_filter.mpr ⟨hmem, ?_⟩
    rw [hc]
    exact hnum
  have hcvsub : ∀ m ∈ columnasValidas df columnas, m ∈ columnas := by
    intro m hm
    exact List.mem_of_mem_filter hm
  have hcvnames : ∀ m ∈ columnasValidas df columnas, m ∈ df.names := by
    intro m hm
    have := (List.mem_filter.mp hm).2
    cases hg : df.getCol? m with
    | none => rw [hg] at this; exact absurd this (by simp)
    | some c0 => exact (mem_names_getCol? df m).mpr ⟨c0, hg⟩
  have hcvnodup : (columnasValidas df columnas).Nodup := List.Nodup.filter _ hnodupC
  have hcvne : ¬ (columnasValidas df columnas).isEmpty = true := by
    rw [List.isEmpty_iff]
    intro he
    rw [he] at hcvmem
    cases hcvmem
  obtain ⟨dr, bs, hrun, hdf'⟩ := imputar_numericas_ok_decomp df columnas p df' hok hcvne
  obtain ⟨l1, l2, hsplit, hn1, hn2⟩ := nodup_split_at_mem hcvnodup hcvmem
  rw [hsplit] at hrun
  obtain ⟨d1, bs1, bs2, hrun1, hrun2⟩ := numRun_append_ok p _ l1 (n :: l2) df dr bs hrun
  obtain ⟨dmid, b1, bs3, hstep, hrun3, -⟩ := numRun_cons_ok p _ d1 n l2 dr bs2 hrun2
  have hsub1 : ∀ m ∈ l1, m ∈ columnasValidas df columnas := by
    intro m hm; rw [hsplit]; exact List.mem_append_left _ hm
  have hsub2 : ∀ m ∈ l2, m ∈ columnasValidas df columnas := by
    intro m hm; rw [hsplit]; exact List.mem_append_right _ (List.mem_cons_of_mem n hm)
  have hd1c : d1.getCol? n = some c := by
    rw [numRun_frame p _ l1 df d1 bs1 n hrun1 ?_]
    · exact hc
    · intro m hm
      refine ⟨fun he => hn1 (he ▸ hm), fun he => ?_⟩
      exact hfresh m (hcvsub m (hsub1 m hm)) (he ▸ hnames)
  have hd1rows : d1.nrows = df.nrows := numRun_nrows p _ l1 df d1 bs1 hrun1
  obtain ⟨-, hmidind⟩ := numStep_high_indicator p _ d1 n c dmid b1 hd1c
    (by rw [hd1rows]; exact hrows) hba (by rw [hd1rows]; exact hhigh) hcrear hstep
  have hdr : dr.getCol? (n ++ "_missing") = some (indicatorCol c) := by
    rw [numRun_frame p _ l2 dmid dr bs3 _ hrun3 ?_]
    · exact hmidind
    · intro m hm
      constructor
      · intro he
        exact hfresh n hmem (he ▸ hcvnames m (hsub2 m hm))
      · intro he
        exact hn2 (string_append_right_cancel n m _ he ▸ hm)
  have hnm_not_cv : (n ++ "_missing") ∉ columnasValidas df columnas := by
    intro hin
    exact hfresh n hmem (hcvnames _ hin)
  have hfinal : df'.getCol? (n ++ "_missing") = some (indicatorCol c) := by
    rw [hdf', castIntLoop_frame _ _ dr _ hnm_not_cv]
    exact hdr
  refine ⟨hfinal, fun i hi => ?_⟩
  unfold getCellQ
  rw [hfinal]
  show cellQ ((indicatorCol c).cells.getD i none) = _
  rw [indicatorCol_getD c i (by rw [hwl c (getCol?_mem df n c hc)]; exact hi)]
  rfl

/-- Witness for C6 at `dfC6w` (column a, 50% missing, defaults): the result
frame carries the indicator column a_missing = [0, 1, 1, 0]. -/
theorem C6_indicator_creation_witness :
    dfC6res.getCol? ("a" ++ "_missing") = some (indicatorCol colC6a) ∧
    ∀ i, i < dfC6w.nrows →
      getCellQ dfC6res ("a" ++ "_missing") i =
        some (if (colC6a.cells.getD i none).isNone then 1 else 0) :=
  C6_indicator_creation dfC6w ["a"] defaultNumParams "a" colC6a dfC6res
    (by decide) (by decide) (by decide) (by decide) (by decide) rfl (by decide)
    (by with_unfolding_all decide) (by with_unfolding_all decide) rfl
    (by with_unfolding_all decide)

/-! ## Claim C7: integer round-trip -/

theorem isInteger_isNumeric (d : Dtype) (h : d.isInteger = true) :
    d.isNumeric = true := by
  cases d <;> first | rfl | exact absurd h (by simp [Dtype.isInteger])

/-- C7: an eligible numeric column whose original declared dtype was an
integer dtype comes back, after a successful `imputar_numericas` call, as a
nullable-`Int64` column every one of whose cells holds a whole number
(imputed values rounded half-to-even and cast back), whatever fill tier was
applied. -/
theorem C7_integer_round_trip (df : DataFrame) (columnas : List String)
    (p : NumParams) (n : String) (c : Col) (df' : DataFrame)
    (hnodupC : columnas.Nodup)
    (hfresh : ∀ m ∈ columnas, (m ++ "_missing") ∉ df.names)
    (hmem : n ∈ columnas) (hc : df.getCol? n = some c)
    (hint : c.dtype.isInteger = true)
    (hok : imputar_numericas df columnas p = Except.ok df') :
    ∃ c', df'.getCol? n = some c' ∧ c'.dtype = Dtype.dtInt64N ∧
      ∀ x ∈ c'.cells, ∃ z : ℤ, x = some (Val.vNum (z : ℚ)) := by
  have hnames : n ∈ df.names := (mem_names_getCol? df n).mpr ⟨c, hc⟩
  have hcvmem : n ∈ columnasValidas df columnas := by
    unfold columnasValidas
    refine List.mem_filter.mpr ⟨hmem, ?_⟩
    rw [hc]
    exact isInteger_isNumeric c.dtype hint
  have hcvsub : ∀ m ∈ columnasValidas df columnas, m ∈ columnas := by
    intro m hm
    exact List.mem_of_mem_filter hm
  have hcvnodup : (columnasValidas df columnas).Nodup := List.Nodup.filter _ hnodupC
  have hcvne : ¬ (columnasValidas df columnas).isEmpty = true := by
    rw [List.isEmpty_iff]
    intro he
    rw [he] at hcvmem
    cases hcvmem
  obtain ⟨dr, bs, hrun, hdf'⟩ := imputar_numericas_ok_decomp df columnas p df' hok hcvne
  obtain ⟨l1, l2, hsplit, hn1, hn2⟩ := nodup_split_at_mem hcvnodup hcvmem
  have hframe_cond : ∀ (l : List String), (∀ m ∈ l, m ∈ columnasValidas df columnas) →
      n ∉ l → ∀ m ∈ l, n ≠ m ∧ n ≠ m ++ "_missing" := by
    intro l hsub hnot m hm
    refine ⟨fun he => hnot (he ▸ hm), fun he => ?_⟩
    exact hfresh m (hcvsub m (hsub m hm)) (he ▸ hnames)
  have hsub1 : ∀ m ∈ l1, m ∈ columnasValidas df columnas := by
    intro m hm; rw [hsplit]; exact List.mem_append_left _ hm
  have hsub2 : ∀ m ∈ l2, m ∈ columnasValidas df columnas := by
    intro m hm; rw [hsplit]; exact List.mem_append_right _ (List.mem_cons_of_mem n hm)
  rw [hsplit] at hrun
  obtain ⟨d1, bs1, bs2, hrun1, hrun2⟩ := numRun_append_ok p _ l1 (n :: l2) df dr bs hrun
  obtain ⟨dmid, b1, bs3, hstep, hrun3, -⟩ := numRun_cons_ok p _ d1 n l2 dr bs2 hrun2
  have hd1c : d1.getCol? n = some c := by
    rw [numRun_frame p _ l1 df d1 bs1 n hrun1 (hframe_cond l1 hsub1 hn1)]
    exact hc
  obtain ⟨c0, c', hc0, hmid, hallnum, -⟩ := numStep_self_col p _ d1 n dmid b1 hstep
  have hcc0 : c0 = c := by
    rw [hd1c] at hc0
    injection hc0 with h'
    exact h'.symm
  have hdrc : dr.getCol? n = some c' := by
    rw [numRun_frame p _ l2 dmid dr bs3 n hrun3 (hframe_cond l2 hsub2 hn2)]
    exact hmid
  have hcn' : c'.name = n := getCol?_name dmid n c' hmid
  -- the cast loop, split at n
  rw [hdf', hsplit, castIntLoop_append, show castIntLoop (origDtypes df) (n :: l2)
    (castIntLoop (origDtypes df) l1 dr)
    = castIntLoop (origDtypes df) l2 (castIntStep (origDtypes df)
        (castIntLoop (origDtypes df) l1 dr) n) from rfl]
  have hpre : (castIntLoop (origDtypes df) l1 dr).getCol? n = some c' := by
    rw [castIntLoop_frame _ l1 dr n hn1]
    exact hdrc
  have hcast : castIntStep (origDtypes df) (castIntLoop (origDtypes df) l1 dr) n
      = (castIntLoop (origDtypes df) l1 dr).setCol (castIntCol c') := by
    unfold castIntStep
    rw [origDtypes_find df n c hc]
    dsimp only
    rw [if_pos (show (c.name, c.dtype).2.isInteger = true from hint)]
    rw [hpre]
  rw [hcast]
  refine ⟨castIntCol c', ?_, rfl, castIntCol_allInt c' hallnum⟩
  rw [castIntLoop_frame _ l2 _ n hn2,
    ← show (castIntCol c').name = n from by rw [castIntCol_name, hcn'],
    getCol?_setCol_self]

/-- Witness for C7 at `dfC7w`: the nullable-integer column [1, 2, NA, 8] with
25% missing (high tier, median 2) comes back as Int64 [1, 2, 2, 8]. -/
theorem C7_integer_round_trip_witness :
    ∃ c', (⟨4, [⟨"a", Dtype.dtInt64N,
        [numCell 1, numCell 2, numCell 2, numCell 8]⟩,
      ⟨"a_missing", Dtype.dtInt, [numCell 0, numCell 0, numCell 1, numCell 0]⟩]⟩ :
        DataFrame).getCol? "a" = some c' ∧
      c'.dtype = Dtype.dtInt64N ∧
      ∀ x ∈ c'.cells, ∃ z : ℤ, x = some (Val.vNum (z : ℚ)) :=
  C7_integer_round_trip dfC7w ["a"] defaultNumParams "a" colC7a
    ⟨4, [⟨"a", Dtype.dtInt64N, [numCell 1, numCell 2, numCell 2, numCell 8]⟩,
         ⟨"a_missing", Dtype.dtInt, [numCell 0, numCell 0, numCell 1, numCell 0]⟩]⟩
    (by decide) (by decide) (by decide) (by decide) rfl
    (by with_unfolding_all decide)

/-! ## Claim C8: frame effect of both imputers -/

theorem imputar_numericas_ok_empty (df : DataFrame) (columnas : List String)
    (p : NumParams) (df' : DataFrame)
    (hok : imputar_numericas df columnas p = Except.ok df')
    (hcv : (columnasValidas df columnas).isEmpty = true) : df' = df := by
  unfold imputar_numericas at hok
  dsimp only at hok
  have hany : (columnas.any (fun m => (df.getCol? m).isNone)) = false := by
    by_contra han
    rw [Bool.not_eq_false] at han
    rw [if_pos han] at hok
    exact nomatch hok
  rw [if_neg (by rw [hany]; simp), if_pos hcv] at hok
  injection hok with h'
  exact h'.symm

/-- C8: both imputers preserve the original column order; every column whose
name is not in the passed list is unchanged; the only modifications are fills
in the targeted columns (observed cells keep their values) and, for the
numeric imputer, the appending of newly created `_missing` indicator columns
(their names are fresh by hypothesis, so no existing label is overwritten). -/
theorem C8_frame_effect
    (dfc : DataFrame) (colsc : List String) (pc : CatParams)
    (dfn : DataFrame) (colsn : List String) (pn : NumParams)
    (hcnodup : dfc.names.Nodup)
    (hnfresh : ∀ m ∈ colsn, (m ++ "_missing") ∉ dfn.names)
    (hnwf : dfn.wf) :
    ((imputar_categoricas dfc colsc pc).names = dfc.names ∧
     (∀ c0 ∈ dfc.cols, c0.name ∉ colsc →
        (imputar_categoricas dfc colsc pc).getCol? c0.name = some c0) ∧
     (∀ s i w, getCellV dfc s i = some w →
        getCellV (imputar_categoricas dfc colsc pc) s i = some w)) ∧
    (∀ df', imputar_numericas dfn colsn pn = Except.ok df' →
      (∃ extra, df'.names = dfn.names ++ extra ∧
         ∀ e ∈ extra, ∃ m ∈ colsn, e = m ++ "_missing") ∧
      (∀ c0 ∈ dfn.cols, c0.name ∉ colsn → df'.getCol? c0.name = some c0) ∧
      (∀ s i q, getCellQ dfn s i = some q → getCellQ df' s i = some q)) := by
  constructor
  · refine ⟨catRun_names pc colsc dfc, fun c0 hc0 hno => ?_, fun s i w hv => ?_⟩
    · show (catRun pc dfc colsc).1.getCol? c0.name = some c0
      rw [catRun_other pc colsc dfc c0.name hno]
      exact getCol?_of_mem dfc c0 hcnodup hc0
    · exact catRun_cellV_preserved pc colsc dfc s i w hv
  · intro df' hok
    have hwl : dfn.wfLen := wf_wfLen dfn hnwf
    have hcvsub : ∀ m ∈ columnasValidas dfn colsn, m ∈ colsn := by
      intro m hm
      exact List.mem_of_mem_filter hm
    have hcvnames : ∀ m ∈ columnasValidas dfn colsn, m ∈ dfn.names := by
      intro m hm
      have := (List.mem_filter.mp hm).2
      cases hg : dfn.getCol? m with
      | none => rw [hg] at this; exact absurd this (by simp)
      | some c0 => exact (mem_names_getCol? dfn m).mpr ⟨c0, hg⟩
    by_cases hcve : (columnasValidas dfn colsn).isEmpty = true
    · have hid := imputar_numericas_ok_empty dfn colsn pn df' hok hcve
      rw [hid]
      refine ⟨⟨[], by rw [List.append_nil], by intro e he; cases he⟩,
        fun c0 hc0 _ => getCol?_of_mem dfn c0 hnwf.2 hc0,
        fun s i q hv => hv⟩
    · obtain ⟨dr, bs, hrun, hdf'⟩ :=
        imputar_numericas_ok_decomp dfn colsn pn df' hok hcve
      refine ⟨?_, ?_, ?_⟩
      · obtain ⟨extra, hext, hextm⟩ :=
          numRun_names_ext pn _ (columnasValidas dfn colsn) dfn dr bs hrun
        refine ⟨extra, ?_, fun e he => ?_⟩
        · rw [hdf', castIntLoop_names]
          exact hext
        · obtain ⟨m, hm, hme⟩ := hextm e he
          exact ⟨m, hcvsub m hm, hme⟩
      · intro c0 hc0 hno
        have hc0names : c0.name ∈ dfn.names := List.mem_map.mpr ⟨c0, hc0, rfl⟩
        have hnotcv : c0.name ∉ columnasValidas dfn colsn := by
          intro hin
          exact hno (hcvsub _ hin)
        rw [hdf', castIntLoop_frame _ _ dr _ hnotcv,
            numRun_frame pn _ _ dfn dr bs c0.name hrun ?_]
        · exact getCol?_of_mem dfn c0 hnwf.2 hc0
        · intro m hm
          refine ⟨fun he => hno (he ▸ hcvsub m hm), fun he => ?_⟩
          exact hnfresh m (hcvsub m hm) (he ▸ hc0names)
      · intro s i q hv
        have hc0 : ∃ c0, dfn.getCol? s = some c0 := by
          unfold getCellQ at hv
          cases hg : dfn.getCol? s with
          | none => rw [hg] at hv; exact absurd hv (by simp)
          | some c0 => exact ⟨c0, rfl⟩
        obtain ⟨c0, hc0⟩ := hc0
        have hsnames : s ∈ dfn.names := (mem_names_getCol? dfn s).mpr ⟨c0, hc0⟩
        have hvq : cellQ (c0.cells.getD i none) = some q := by
          unfold getCellQ at hv
          rw [hc0] at hv
          exact hv
        have hrunpres : getCellQ dr s i = some q := by
          apply numRun_cellQ_preserved pn _ _ dfn dr bs s i q hrun hwl ?_ hv
          intro m hm he
          exact hnfresh m (hcvsub m hm) (he ▸ hsnames)
        rw [hdf']
        apply castIntLoop_cellQ_preserved _ _ dr s i q hrunpres
        by_cases hi : c0.dtype.isInteger = true
        · exact Or.inl (wf_int_cells dfn hnwf c0 (getCol?_mem dfn s c0 hc0) hi i q hvq)
        · refine Or.inr (fun pr hpr => ?_)
          rw [origDtypes_find dfn s c0 hc0] at hpr
          injection hpr with hpr'
          rw [← hpr']
          exact Bool.not_eq_true _ ▸ hi

/-- Witness for C8: categorical part at `dfC3w` with list ["c"], numeric part
at `dfC6w` with list ["a"] (where the call succeeds and appends a_missing). -/
theorem C8_frame_effect_witness :
    ((imputar_categoricas dfC3w ["c"] defaultCatParams).names = dfC3w.names ∧
     (∀ c0 ∈ dfC3w.cols, c0.name ∉ ["c"] →
        (imputar_categoricas dfC3w ["c"] defaultCatParams).getCol? c0.name = some c0) ∧
     (∀ s i w, getCellV dfC3w s i = some w →
        getCellV (imputar_categoricas dfC3w ["c"] defaultCatParams) s i = some w)) ∧
    (∀ df', imputar_numericas dfC6w ["a"] defaultNumParams = Except.ok df' →
      (∃ extra, df'.names = dfC6w.names ++ extra ∧
         ∀ e ∈ extra, ∃ m ∈ ["a"], e = m ++ "_missing") ∧
      (∀ c0 ∈ dfC6w.cols, c0.name ∉ ["a"] → df'.getCol? c0.name = some c0) ∧
      (∀ s i q, getCellQ dfC6w s i = some q → getCellQ df' s i = some q)) :=
  C8_frame_effect dfC3w ["c"] defaultCatParams dfC6w ["a"] defaultNumParams
    (by decide) (by decide) (by decide)

end HRImpute
